import Mathlib

/-!
Shallow embedding of the canbox Kademlia DHT core (JavaScript sources under
`src/p2p/...` and the unnamed parts of the same repository) together with
proofs settling the frozen claims C1..C10.

Conventions of the embedding:
* 160-bit node identifiers (40-hex-char strings in the source) are modelled as
  `Nat`; the byte-wise XOR of the two 20-byte id buffers interpreted as a
  big-endian unsigned integer (`Node.distanceTo` in the source) equals `Nat.xor`
  of the two id values.
* `bignumber.js` values (bucket range endpoints, distances as compared by the
  source) are modelled as `ℚ`: BigNumber division by 2 is exact decimal
  division, not integer division, so `(min + max) / 2` can be fractional.
* JavaScript `Map`s are modelled as insertion-ordered association lists;
  `Map.prototype.set` on a fresh key appends, on a present key it updates the
  value in place keeping the position.
* Wall-clock times (`Date.now()` milliseconds) are explicit `Int` parameters.
* Asynchronous RPC outcomes are oracle parameters: a remote call is a value
  `(Bool × Option V)` as produced by the rpcudp layer (`[true, data]` on
  response, `[false, null]` on timeout).
-/

set_option maxRecDepth 40000

namespace Canbox

/-- `Node` from the kademlia node module: an `(id, ip, port)` triple. -/
structure Node where
  id : Nat
  ip : String := ""
  port : Nat := 0
deriving DecidableEq, Repr

/-- `Node.sameHomeAs`: equality of `(ip, port)` only, not of ids. -/
def Node.sameHomeAs (a b : Node) : Bool :=
  a.ip == b.ip && a.port == b.port

/-- `Node.distanceTo`: byte-wise XOR of the two 20-byte ids read big-endian,
which equals XOR of the id values. -/
def Node.distanceTo (a b : Node) : Nat :=
  a.id ^^^ b.id

/-- XOR distance with a fixed first argument is injective on ids. -/
theorem distanceTo_inj (t : Node) {a b : Node} (h : t.distanceTo a = t.distanceTo b) :
    a.id = b.id := by
  have h2 : t.id ^^^ (t.id ^^^ a.id) = t.id ^^^ (t.id ^^^ b.id) := by
    simp only [Node.distanceTo] at h
    rw [h]
  simpa [← Nat.xor_assoc] using h2

/-- The comparator `compare` from utils ranks heap entries by their first
component (the BigNumber distance); as a Prop relation on `(distance, node)`
pairs. -/
def distLe (a b : Nat × Node) : Prop :=
  a.1 ≤ b.1

instance : DecidableRel distLe := fun a b => inferInstanceAs (Decidable (a.1 ≤ b.1))

instance : IsTotal (Nat × Node) distLe :=
  ⟨fun a b => Nat.le_total a.1 b.1⟩

instance : IsTrans (Nat × Node) distLe :=
  ⟨fun _ _ _ h h' => Nat.le_trans h h'⟩

/-- `heapq.nsmallest(heap, k, compare)`: the `k` smallest entries in ascending
order of the comparator.  Modelled with a sort followed by `take`; the binary
heap's internal array order is representation detail never observed except
through this function. -/
def nsmallest (l : List (Nat × Node)) (k : Nat) : List (Nat × Node) :=
  (l.insertionSort distLe).take k

/-- `NodeHeap`: a heap of `(distance, node)` entries around a fixed target
node, with a visible size cap `maxsize` and a side set of contacted ids.  The
heap array is modelled as the list of its entries (multiset-faithful: pushes
append, `nsmallest` sorts). -/
structure NodeHeap where
  node : Node
  heap : List (Nat × Node) := []
  contacted : List Nat := []
  maxsize : Nat

/-- `NodeHeap.has(node)`: some heap entry has the same id. -/
def NodeHeap.has (h : NodeHeap) (n : Node) : Bool :=
  h.heap.any (fun e => e.2.id == n.id)

/-- One iteration of the loop body of `NodeHeap.push`: skip if an entry with
the same id exists, otherwise insert `(distanceTo, node)`. -/
def NodeHeap.push1 (h : NodeHeap) (n : Node) : NodeHeap :=
  if h.has n then h
  else { h with heap := h.heap ++ [(h.node.distanceTo n, n)] }

/-- `NodeHeap.push(nodes)` over a list of nodes. -/
def NodeHeap.push (h : NodeHeap) (ns : List Node) : NodeHeap :=
  ns.foldl NodeHeap.push1 h

/-- `NodeHeap[Symbol.iterator]`: yield the nodes of the `maxsize` smallest
entries in ascending distance order. -/
def NodeHeap.iterate (h : NodeHeap) : List Node :=
  (nsmallest h.heap h.maxsize).map (fun e => e.2)

/-- A fresh `NodeHeap` around `node` with capacity `maxsize`. -/
def NodeHeap.mk0 (node : Node) (maxsize : Nat) : NodeHeap :=
  { node := node, maxsize := maxsize }

/-- The ids of the entries stored in the heap array. -/
def NodeHeap.ids (h : NodeHeap) : List Nat :=
  h.heap.map (fun e => e.2.id)

/-- Well-formedness of the heap array: entry ids are pairwise distinct and
every entry's first component is the distance from the target to its node. -/
def NodeHeap.WF (h : NodeHeap) : Prop :=
  h.ids.Nodup ∧ ∀ e ∈ h.heap, e.1 = h.node.distanceTo e.2

/-- `IStorage`/`ForgetfulStorage` from storage.js: an insertion-ordered map
from keys to `(insert time, value)` with a ttl (default 20000 ms).  The JS
`Map` is modelled as the list of its entries `(key, time, value)` in insertion
order. -/
structure Store (K V : Type) where
  entries : List (K × Int × V)
  ttl : Int := 20000

/-- `iteritemsOlderThan(secondsOld)`: the `(key, value)` pairs of the entries
whose stamp `t` satisfies `now - secondsOld ≥ t`, in insertion order. -/
def Store.olderThan {K V : Type} (s : Store K V) (now age : Int) : List (K × V) :=
  (s.entries.filter (fun e => now - age ≥ e.2.1)).map (fun e => (e.1, e.2.2))

/-- `ForgetfulStorage.cull()`: one FIFO `pop` per item of
`iteritemsOlderThan(ttl)`; the iteration list is computed once up front, so
exactly that many entries are removed from the front. -/
def Store.cull {K V : Type} (s : Store K V) (now : Int) : Store K V :=
  { s with entries := s.entries.drop (s.olderThan now s.ttl).length }

/-- The `has`/`delete` prelude of `IStorage.set`: remove the entry for the key
if one is present (`Map.delete`); a no-op otherwise. -/
def deleteKey {K V : Type} [DecidableEq K] (l : List (K × Int × V)) (k : K) :
    List (K × Int × V) :=
  if l.any (fun e => e.1 == k) then l.filter (fun e => !(e.1 == k)) else l

/-- `IStorage.set(key, value)`: delete any prior entry for the key, append a
fresh entry stamped with the current time, then cull. -/
def Store.set {K V : Type} [DecidableEq K] (s : Store K V) (k : K) (v : V)
    (now : Int) : Store K V :=
  Store.cull { s with entries := deleteKey s.entries k ++ [(k, now, v)] } now

/-- `IStorage.get(key)`: cull, then return the stored value if present; the
culled store is the state after the call. -/
def Store.get {K V : Type} [DecidableEq K] (s : Store K V) (k : K) (now : Int) :
    Store K V × Option V :=
  let s' := s.cull now
  (s', (s'.entries.find? (fun e => e.1 == k)).map (fun e => e.2.2))

/-- `IStorage.pop('FIFO')`: remove the first (oldest) entry, if any. -/
def Store.popFIFO {K V : Type} (s : Store K V) : Store K V :=
  { s with entries := s.entries.drop 1 }

/-- `ForgetfulStorage.items()`: cull, then all `(key, value)` pairs. -/
def Store.items {K V : Type} (s : Store K V) (now : Int) :
    Store K V × List (K × V) :=
  let s' := s.cull now
  (s', s'.entries.map (fun e => (e.1, e.2.2)))

/-- Storage invariant: stamps non-decreasing in insertion order, keys pairwise
distinct, every stamp at most the current time. -/
def Store.WF {K V : Type} (s : Store K V) (now : Int) : Prop :=
  s.entries.Pairwise (fun a b => a.2.1 ≤ b.2.1) ∧
  (s.entries.map (fun e => e.1)).Nodup ∧
  ∀ e ∈ s.entries, e.2.1 ≤ now

/-- The storage operations a caller can interleave: `set` (from `rpc_store`
or the server api) and `get`. -/
inductive SOp (K V : Type) where
  | setOp (k : K) (v : V)
  | getOp (k : K)

/-- Apply one timestamped storage operation. -/
def runOp {K V : Type} [DecidableEq K] (s : Store K V) :
    Int × SOp K V → Store K V
  | (t, .setOp k v) => s.set k v t
  | (t, .getOp k) => (s.get k t).1

/-- Apply a list of timestamped storage operations in order. -/
def runOps {K V : Type} [DecidableEq K] (s : Store K V)
    (ops : List (Int × SOp K V)) : Store K V :=
  ops.foldl runOp s

/-- `KBucket` from the routing module.  Range endpoints are `bignumber.js`
values (modelled as `ℚ`: BigNumber `div(2)` is exact decimal division, so the
midpoint of a range with odd span is fractional; BigNumber would round such
quotients past its 20-decimal precision, a regime none of the claims reach).
`nodes` is the insertion-ordered id-keyed `Map`; `replacementNodes` the
`OrderedSet`.  `lastUpdated` is wall-clock bookkeeping and is omitted. -/
structure KBucket where
  rangeLower : ℚ
  rangeUpper : ℚ
  nodes : List Node
  replacementNodes : List Node
  ksize : Nat
deriving DecidableEq, Repr

/-- JS `Map.set(id, node)` keyed by node id: update in place when the key is
present, else append. -/
def mapSet (l : List Node) (n : Node) : List Node :=
  if l.any (fun m => m.id == n.id) then
    l.map (fun m => if m.id == n.id then n else m)
  else l ++ [n]

/-- JS `Map.delete(id)` keyed by node id. -/
def mapDelete (l : List Node) (idv : Nat) : List Node :=
  l.filter (fun m => !(m.id == idv))

/-- `OrderedSet.push` (keyed by the node's full JSON triple): remove the
element if present, then append at the tail. -/
def osPush (l : List Node) (n : Node) : List Node :=
  (l.filter (fun m => !(m == n))) ++ [n]

/-- The loop body of `KBucket.split()`: an entry goes to the lower bucket iff
`midpoint > id` (`midpoint.gt(id, 16)`), otherwise — the midpoint itself
included — to the upper bucket. -/
def splitStep (mid : ℚ) (p : KBucket × KBucket) (n : Node) : KBucket × KBucket :=
  if mid > (n.id : ℚ) then ({ p.1 with nodes := mapSet p.1.nodes n }, p.2)
  else (p.1, { p.2 with nodes := mapSet p.2.nodes n })

/-- `KBucket.split()`: two fresh buckets at the midpoint `(lo + hi) / 2`
(lower keeps `[lo, mid]`, upper gets `[mid + 1, hi]`, both with empty
replacement queues), the entries distributed in insertion order by
`splitStep`. -/
def KBucket.split (b : KBucket) : KBucket × KBucket :=
  let mid : ℚ := (b.rangeLower + b.rangeUpper) / 2
  b.nodes.foldl (splitStep mid)
    (⟨b.rangeLower, mid, [], [], b.ksize⟩, ⟨mid + 1, b.rangeUpper, [], [], b.ksize⟩)

/-- `KBucket.removeNode(node)`: delete by id when present; then promote the
newest replacement, if any, into the main set. -/
def KBucket.removeNode (b : KBucket) (n : Node) : KBucket :=
  if b.nodes.any (fun m => m.id == n.id) then
    match b.replacementNodes.getLast? with
    | some newnode =>
        { b with nodes := mapSet (mapDelete b.nodes n.id) newnode,
                 replacementNodes := b.replacementNodes.dropLast }
    | none => { b with nodes := mapDelete b.nodes n.id }
  else b

/-- `KBucket.hasInRange(node)`: `lo ≤ id ≤ hi`. -/
def KBucket.hasInRange (b : KBucket) (n : Node) : Bool :=
  b.rangeLower ≤ (n.id : ℚ) && (n.id : ℚ) ≤ b.rangeUpper

/-- `KBucket.isNewNode(node)`: the id is not in the main set. -/
def KBucket.isNewNode (b : KBucket) (n : Node) : Bool :=
  !(b.nodes.any (fun m => m.id == n.id))

/-- `KBucket.addNode(node)`: refresh position if present; append if below
capacity; otherwise push onto the replacement queue and report failure. -/
def KBucket.addNode (b : KBucket) (n : Node) : KBucket × Bool :=
  if b.nodes.any (fun m => m.id == n.id) then
    ({ b with nodes := mapSet (mapDelete b.nodes n.id) n }, true)
  else if b.nodes.length < b.ksize then
    ({ b with nodes := mapSet b.nodes n }, true)
  else
    ({ b with replacementNodes := osPush b.replacementNodes n }, false)

/-- `bytesToBitString` of a 160-bit id: its 160 bits, most significant
first. -/
def bitString (idv : Nat) : List Bool :=
  (List.range 160).map (fun i => idv.testBit (159 - i))

/-- Column agreement used by `sharedPrefix`: the set of characters at
position `i` across the strings has exactly one element. -/
def agreeAt (bits : List (List Bool)) (i : Nat) : Bool :=
  match bits with
  | [] => false
  | a :: rest => rest.all (fun l => l.get? i == a.get? i)

/-- `KBucket.depth()`: length of the longest shared bit-prefix over the
entries' ids.  (The source throws on an empty bucket; it is only invoked on
full buckets.  Here an empty bucket yields 0.) -/
def KBucket.depth (b : KBucket) : Nat :=
  ((List.range 160).takeWhile
    (fun i => agreeAt (b.nodes.map (fun n => bitString n.id)) i)).length

/-- `KBucket.head()`: the oldest entry of the main set. -/
def KBucket.headNode (b : KBucket) : Option Node :=
  b.nodes.head?

/-- `RoutingTable`: the local node (never stored), the bucket size and the
ordered bucket list. -/
structure RoutingTable where
  node : Node
  ksize : Nat
  buckets : List KBucket
deriving DecidableEq, Repr

/-- `RoutingTable.flush()` (also the constructor): a single bucket covering
`[0, 2^160]`. -/
def RoutingTable.flush (node : Node) (ksize : Nat) : RoutingTable :=
  ⟨node, ksize, [⟨0, (2 : ℚ) ^ 160, [], [], ksize⟩]⟩

/-- `getBucketFor(node)`: index of the first bucket whose upper bound is at
least the node's id (the source returns `undefined` past the end; here the
list length, on which subsequent lookups yield `none`). -/
def RoutingTable.getBucketFor (t : RoutingTable) (n : Node) : Nat :=
  t.buckets.findIdx (fun b => (n.id : ℚ) ≤ b.rangeUpper)

/-- `splitBucket(index)`: replace bucket `index` by its lower half and insert
the upper half right after it. -/
def RoutingTable.splitBucket (t : RoutingTable) (i : Nat) : RoutingTable :=
  match t.buckets.get? i with
  | none => t
  | some b =>
      let p := b.split
      { t with buckets := t.buckets.take i ++ [p.1, p.2] ++ t.buckets.drop (i + 1) }

/-- `removeContact(node)`: delegate `removeNode` to the covering bucket. -/
def RoutingTable.removeContact (t : RoutingTable) (n : Node) : RoutingTable :=
  match t.buckets.get? (t.getBucketFor n) with
  | none => t
  | some b => { t with buckets := t.buckets.set (t.getBucketFor n) (b.removeNode n) }

/-- `isNewNode(node)` on the covering bucket. -/
def RoutingTable.isNewNode (t : RoutingTable) (n : Node) : Bool :=
  match t.buckets.get? (t.getBucketFor n) with
  | none => true
  | some b => b.isNewNode n

/-- `addContact(node)`, with explicit recursion fuel: each recursive call
follows a `splitBucket`, and the JS recursion terminates because ranges
shrink; running out of fuel returns the table as-is, so every fuel-bounded
run is a prefix of the real one.  On a full bucket the failed `addNode` has
already pushed the node onto the replacement queue (in-place mutation in the
source); the `callPing(bucket.head())` of the no-split branch is an
asynchronous RPC with no synchronous table change. -/
def RoutingTable.addContact (t : RoutingTable) (n : Node) : Nat → RoutingTable
  | 0 => t
  | fuel + 1 =>
      let i := t.getBucketFor n
      match t.buckets.get? i with
      | none => t
      | some bucket =>
          let r := bucket.addNode n
          let t' := { t with buckets := t.buckets.set i r.1 }
          if r.2 then t'
          else if bucket.hasInRange t.node || bucket.depth % 5 != 0 then
            RoutingTable.addContact (t'.splitBucket i) n fuel
          else t'

/-- `TableTraverser` iteration: nodes of the current bucket are popped from
the tail; on exhaustion the next bucket is popped from the tail of the left
list (when `left` is set and any remain) — the bucket adjacent to the start —
or else from the tail of the right list (the farthest right bucket first, as
in the source), flipping `left` each time. -/
def traverseAux : List Node → List KBucket → List KBucket → Bool → List Node
  | n :: rest, lefts, rights, left => n :: traverseAux rest lefts rights left
  | [], lefts, rights, left =>
      if left && !lefts.isEmpty then
        match hl : lefts.getLast? with
        | some b => traverseAux b.nodes.reverse lefts.dropLast rights false
        | none => []
      else
        match hr : rights.getLast? with
        | some b => traverseAux b.nodes.reverse lefts rights.dropLast true
        | none => []
termination_by current lefts rights _ => (lefts.length + rights.length, current.length)
decreasing_by
  · simp_wf
    exact Prod.Lex.right _ (Nat.lt_succ_self _)
  · simp_wf
    refine Prod.Lex.left _ _ ?_
    have hne : lefts ≠ [] := by
      intro h
      subst h
      simp at hl
    have : lefts.length ≠ 0 := fun h => hne (List.length_eq_zero.1 h)
    omega
  · simp_wf
    refine Prod.Lex.left _ _ ?_
    have hne : rights ≠ [] := by
      intro h
      subst h
      simp at hr
    have : rights.length ≠ 0 := fun h => hne (List.length_eq_zero.1 h)
    omega

/-- The order in which `TableTraverser(table, startNode)` yields nodes. -/
def RoutingTable.traverse (t : RoutingTable) (start : Node) : List Node :=
  match t.buckets.get? (t.getBucketFor start) with
  | none => []
  | some b =>
      traverseAux b.nodes.reverse (t.buckets.take (t.getBucketFor start))
        (t.buckets.drop (t.getBucketFor start + 1)) true

/-- `findNeighbors(node, k, exclude)`: walk the table traversal collecting
`(distance, node)` pairs for nodes that are not the target (by id) and not
same-home as `exclude`, stopping once `k` are collected; then the `k`
smallest by distance, in ascending order. -/
def RoutingTable.findNeighbors (t : RoutingTable) (node : Node)
    (k : Option Nat := none) (exclude : Option Node := none) : List Node :=
  let kk := k.getD t.ksize
  let eligible := (t.traverse node).filter (fun nb =>
    !(nb.id == node.id) && (match exclude with
      | none => true
      | some ex => !(nb.sameHomeAs ex)))
  let pairs := (eligible.take kk).map (fun nb => (node.distanceTo nb, nb))
  (nsmallest pairs kk).map (fun e => e.2)

/-- Reachable routing-table states: the initial single bucket, evolved by
`addContact` (with its internal bucket splits) and `removeContact` on
160-bit ids. -/
inductive Reachable (self : Node) (ksize : Nat) : RoutingTable → Prop
  | init : Reachable self ksize (RoutingTable.flush self ksize)
  | add (t : RoutingTable) (n : Node) (fuel : Nat) :
      Reachable self ksize t → n.id < 2 ^ 160 →
      Reachable self ksize (t.addContact n fuel)
  | remove (t : RoutingTable) (n : Node) :
      Reachable self ksize t → n.id < 2 ^ 160 →
      Reachable self ksize (t.removeContact n)

/-- Every main-set and replacement-queue id of the bucket lies in
`[lo − 1, hi]` (the `− 1` slack is forced by `split`, which places an entry
whose id equals the midpoint into the upper bucket starting at
`midpoint + 1`). -/
def rangedB (b : KBucket) : Prop :=
  ∀ n ∈ b.nodes ++ b.replacementNodes,
    b.rangeLower - 1 ≤ (n.id : ℚ) ∧ (n.id : ℚ) ≤ b.rangeUpper

/-- The bucket ranges are adjacent starting at `lo` and end exactly at
`2^160`: each bucket starts where the previous ended plus one. -/
def ChainOK : ℚ → List KBucket → Prop
  | lo, [] => lo = 2 ^ 160 + 1
  | lo, b :: rest => b.rangeLower = lo ∧ ChainOK (b.rangeUpper + 1) rest

/-- The invariant exactly as claim C2 states it: the ranges cover every
160-bit id with no overlaps, and every stored id lies within its bucket's
`[lo, hi]`. -/
def ClaimedC2 (t : RoutingTable) : Prop :=
  ((∀ idv : Nat, idv ≤ 2 ^ 160 →
      ∃ b ∈ t.buckets, b.rangeLower ≤ (idv : ℚ) ∧ (idv : ℚ) ≤ b.rangeUpper) ∧
    t.buckets.Pairwise (fun b c => ∀ x : ℚ,
      ¬ (b.rangeLower ≤ x ∧ x ≤ b.rangeUpper ∧ c.rangeLower ≤ x ∧ x ≤ c.rangeUpper))) ∧
  (∀ b ∈ t.buckets, ∀ n ∈ b.nodes,
      b.rangeLower ≤ (n.id : ℚ) ∧ (n.id : ℚ) ≤ b.rangeUpper)

/-- The `KademliaProtocol` state read by `welcomeIfNewNode`: routing table,
storage and the local source node. -/
structure ProtocolState (K V : Type) where
  router : RoutingTable
  storage : Store K V
  sourceNode : Node

/-- The per-item condition of `welcomeIfNewNode`: `callStore` is issued when
the key's digest has no neighbors (`l === 0`), or the new node is closer to
the key than `neighbors[l - 1]` (the furthest returned) while the local node
is closer than `neighbors[0]` (the closest). -/
def welcomeCond {K V : Type} (digest : K → Nat) (p : ProtocolState K V)
    (node : Node) (kv : K × V) : Bool :=
  let keynode : Node := ⟨digest kv.1, "", 0⟩
  let neighbors := p.router.findNeighbors keynode none none
  let l := neighbors.length
  if l = 0 then true
  else
    decide (node.distanceTo keynode
        < (neighbors.getD (l - 1) ⟨0, "", 0⟩).distanceTo keynode) &&
    decide (p.sourceNode.distanceTo keynode
        < (neighbors.getD 0 ⟨0, "", 0⟩).distanceTo keynode)

/-- `welcomeIfNewNode(node)`: a no-op for a known sender; otherwise every
stored item passing `welcomeCond` is sent to the new node via `callStore`,
and the node is added to the routing table.  `digest` (SHA-1 of the key) is
an oracle parameter; `now` is the clock read by the cull inside `items()`.
Returns the `(key, value)` pairs sent and the updated router. -/
def welcomeIfNewNode {K V : Type} (digest : K → Nat) (p : ProtocolState K V)
    (node : Node) (now : Int) (fuel : Nat) : List (K × V) × RoutingTable :=
  if p.router.isNewNode node = false then ([], p.router)
  else
    (((p.storage.items now).2).filter (welcomeCond digest p node),
     p.router.addContact node fuel)

/-- The routing-table state reached from a fresh table with ksize 1 by
adding the node with id `2^159` (the initial bucket's midpoint) and then the
node with id 5, which forces a split. -/
def tBadC2 : RoutingTable :=
  ((RoutingTable.flush ⟨0, "", 0⟩ 1).addContact ⟨2 ^ 159, "", 0⟩ 10).addContact
    ⟨5, "", 0⟩ 10

/-- A node sitting exactly at the midpoint of the initial bucket. -/
def bMidC3_node : Node :=
  ⟨2 ^ 159, "", 0⟩

/-- A full-range bucket holding only the midpoint node. -/
def bMidC3 : KBucket :=
  ⟨0, (2 : ℚ) ^ 160, [bMidC3_node], [], 20⟩

/-- One pending-RPC slot of the rpcudp layer for a fixed msgid: whether
`_outstanding` still holds the entry, whether the timeout timer is armed, and
the caller's completion (a JS promise — only the first `resolve` sticks). -/
structure PendingState (V : Type) where
  outstanding : Bool
  timerActive : Bool
  completion : Option (Bool × Option V)
deriving DecidableEq, Repr

/-- JS promise resolution: the first resolve wins, later ones are ignored. -/
def resolveFirst {V : Type} (c : Option (Bool × Option V)) (r : Bool × Option V) :
    Option (Bool × Option V) :=
  match c with
  | none => some r
  | some c0 => some c0

/-- `RPCProtocol._acceptResponse(msgid, data)`: a response with unknown msgid
is logged and dropped; otherwise the timer is cleared, the completion
resolved with `[true, data]` and the entry deleted. -/
def acceptResponse {V : Type} (s : PendingState V) (data : V) : PendingState V :=
  if s.outstanding then
    { outstanding := false, timerActive := false,
      completion := resolveFirst s.completion (true, some data) }
  else s

/-- `RPCProtocol._timeout(msgid)`: the completion is resolved with
`[false, null]` and the entry deleted; the single-shot timer is spent. -/
def timeoutFire {V : Type} (s : PendingState V) : PendingState V :=
  { outstanding := false, timerActive := false,
    completion := resolveFirst s.completion (false, none) }

/-- The pending entry right after registration in `rpc()`: present, timer
armed, caller not yet completed. -/
def registered (V : Type) : PendingState V :=
  ⟨true, true, none⟩

/-- A sequence of arriving responses for the same msgid. -/
def runResponses {V : Type} (s : PendingState V) (ds : List V) : PendingState V :=
  ds.foldl acceptResponse s

/-- `KademliaProtocol.handleCallResponse(result, node)`: on a failed call
(`result[0]` false) remove the contact from the router; on success welcome
the node.  Returns the result, the updated protocol state, and the stores
issued by the welcome. -/
def handleCallResponse {K V : Type} (digest : K → Nat) (p : ProtocolState K V)
    (result : Bool × Option V) (node : Node) (now : Int) (fuel : Nat) :
    (Bool × Option V) × ProtocolState K V × List (K × V) :=
  if result.1 = false then
    (result, { p with router := p.router.removeContact node }, [])
  else
    (result, { p with router := (welcomeIfNewNode digest p node now fuel).2 },
     (welcomeIfNewNode digest p node now fuel).1)

/-- Outcome of `Server.set_digest`. -/
inductive SetDigestResult (V : Type) where
  | noNeighbors
  | pending
  | result (r : Bool × Option V)
deriving DecidableEq, Repr

/-- `Server.set_digest(dkey, value)`: find neighbors of the digest's node;
with none, return `false`; otherwise store locally when the local node is
closer to the key than the furthest crawled node, issue `callStore` to every
crawled node and return `any(ds)`.  The spider crawl and the remote RPCs are
oracle parameters: `nodes` is the crawl's output and `settled` the
`callStore` result tuples in settlement order.  Since the rpcudp completion
only ever resolves (a timeout resolves `[false, null]`), `any`'s reject
branch is dead and `Promise.race` yields the first settled tuple — or hangs
when the crawl returned no nodes. -/
def set_digest {V : Type} (self : Node) (router : RoutingTable)
    (storage : Store Nat V) (dkey : Nat) (value : V)
    (nodes : List Node) (settled : List (Bool × Option V)) (now : Int) :
    SetDigestResult V × Store Nat V :=
  let node : Node := ⟨dkey, "", 0⟩
  let nearest := router.findNeighbors node none none
  if nearest.length = 0 then (.noNeighbors, storage)
  else
    let storage' :=
      match (nodes.map (fun n => n.distanceTo node)).maximum with
      | none => storage
      | some biggest =>
          if self.distanceTo node < biggest then storage.set dkey value now
          else storage
    match settled with
    | [] => (.pending, storage')
    | r :: _ => (.result r, storage')

/-- A routing table holding the single contact with id 9. -/
def c1router : RoutingTable :=
  ⟨⟨0, "", 0⟩, 20, [⟨0, (2 : ℚ) ^ 160, [⟨9, "", 0⟩], [], 20⟩]⟩

/-- Store-call outcomes where the first to settle is a timeout and the
second a success. -/
def c1settled : List (Bool × Option Nat) :=
  [(false, none), (true, some 7)]

/-- BigNumber `integerValue()` under the default `ROUND_HALF_UP` mode for the
nonnegative values arising in `getRefreshIDs`. -/
def bnIntegerValue (q : ℚ) : Int :=
  ⌊q + 1 / 2⌋

/-- `getRefreshIDs` for one lonely bucket and one draw `rnd` of `random()`:
`sub.times(rnd).plus(sub).integerValue()` printed in hex and truncated by
`(BIT_EMPTY + hex).slice(-40)` — numerically, the value modulo `16^40`. -/
def refreshID (b : KBucket) (rnd : ℚ) : Int :=
  (bnIntegerValue ((b.rangeUpper - b.rangeLower) * rnd + (b.rangeUpper - b.rangeLower)))
    % (16 ^ 40 : Int)

theorem mem_mapSet (l : List Node) (n : Node) (x : Node) (hx : x ∈ mapSet l n) :
    x ∈ l ∨ x = n := by
  unfold mapSet at hx
  split at hx
  · rcases List.mem_map.1 hx with ⟨m, hm, hmx⟩
    by_cases hid : (m.id == n.id) = true
    · rw [if_pos hid] at hmx
      exact Or.inr hmx.symm
    · rw [if_neg hid] at hmx
      subst hmx
      exact Or.inl hm
  · rcases List.mem_append.1 hx with h | h
    · exact Or.inl h
    · exact Or.inr (List.mem_singleton.1 h)

theorem mapSet_eq_append (l : List Node) (n : Node) (h : n.id ∉ l.map Node.id) :
    mapSet l n = l ++ [n] := by
  unfold mapSet
  rw [if_neg]
  intro hany
  rcases List.any_eq_true.1 hany with ⟨m, hm, hmn⟩
  exact h (List.mem_map.2 ⟨m, hm, beq_iff_eq.1 hmn⟩)

theorem foldl_splitStep_shape (mid : ℚ) :
    ∀ (l : List Node) (acc : KBucket × KBucket),
      ∃ ns1 ns2, l.foldl (splitStep mid) acc
        = ({ acc.1 with nodes := ns1 }, { acc.2 with nodes := ns2 }) ∧
        (∀ x ∈ ns1, x ∈ acc.1.nodes ∨ (x ∈ l ∧ (x.id : ℚ) < mid)) ∧
        (∀ x ∈ ns2, x ∈ acc.2.nodes ∨ (x ∈ l ∧ mid ≤ (x.id : ℚ))) := by
  intro l
  induction l with
  | nil =>
    intro acc
    exact ⟨acc.1.nodes, acc.2.nodes, rfl,
      fun x hx => Or.inl hx, fun x hx => Or.inl hx⟩
  | cons n t ih =>
    intro acc
    rw [List.foldl_cons]
    by_cases hlt : mid > (n.id : ℚ)
    · have hstep : splitStep mid acc n
          = ({ acc.1 with nodes := mapSet acc.1.nodes n }, acc.2) := by
        unfold splitStep
        rw [if_pos hlt]
      rw [hstep]
      obtain ⟨ns1, ns2, heq, hm1, hm2⟩ := ih ({ acc.1 with nodes := mapSet acc.1.nodes n }, acc.2)
      refine ⟨ns1, ns2, heq, ?_, ?_⟩
      · intro x hx
        rcases hm1 x hx with hx1 | hx1
        · rcases mem_mapSet _ _ _ hx1 with hx2 | hx2
          · exact Or.inl hx2
          · subst hx2
            exact Or.inr ⟨List.mem_cons_self _ _, hlt⟩
        · exact Or.inr ⟨List.mem_cons_of_mem _ hx1.1, hx1.2⟩
      · intro x hx
        rcases hm2 x hx with hx1 | hx1
        · exact Or.inl hx1
        · exact Or.inr ⟨List.mem_cons_of_mem _ hx1.1, hx1.2⟩
    · have hstep : splitStep mid acc n
          = (acc.1, { acc.2 with nodes := mapSet acc.2.nodes n }) := by
        unfold splitStep
        rw [if_neg hlt]
      rw [hstep]
      obtain ⟨ns1, ns2, heq, hm1, hm2⟩ := ih (acc.1, { acc.2 with nodes := mapSet acc.2.nodes n })
      refine ⟨ns1, ns2, heq, ?_, ?_⟩
      · intro x hx
        rcases hm1 x hx with hx1 | hx1
        · exact Or.inl hx1
        · exact Or.inr ⟨List.mem_cons_of_mem _ hx1.1, hx1.2⟩
      · intro x hx
        rcases hm2 x hx with hx1 | hx1
        · rcases mem_mapSet _ _ _ hx1 with hx2 | hx2
          · exact Or.inl hx2
          · subst hx2
            exact Or.inr ⟨List.mem_cons_self _ _, not_lt.1 hlt⟩
        · exact Or.inr ⟨List.mem_cons_of_mem _ hx1.1, hx1.2⟩

theorem foldl_splitStep_eq (mid : ℚ) :
    ∀ (l : List Node) (acc : KBucket × KBucket),
      (∀ n ∈ l, n.id ∉ acc.1.nodes.map Node.id) →
      (∀ n ∈ l, n.id ∉ acc.2.nodes.map Node.id) →
      (l.map Node.id).Nodup →
      l.foldl (splitStep mid) acc
        = ({ acc.1 with nodes := acc.1.nodes ++ l.filter (fun n => decide (mid > (n.id : ℚ))) },
           { acc.2 with nodes := acc.2.nodes ++ l.filter (fun n => !(decide (mid > (n.id : ℚ)))) }) := by
  intro l
  induction l with
  | nil =>
    intro acc _ _ _
    simp
  | cons n t ih =>
    intro acc h1 h2 hnd
    rw [List.map_cons, List.nodup_cons] at hnd
    rw [List.foldl_cons]
    by_cases hlt : mid > (n.id : ℚ)
    · have hstep : splitStep mid acc n
          = ({ acc.1 with nodes := acc.1.nodes ++ [n] }, acc.2) := by
        unfold splitStep
        rw [if_pos hlt, mapSet_eq_append _ _ (h1 n (List.mem_cons_self _ _))]
      rw [hstep]
      rw [ih ({ acc.1 with nodes := acc.1.nodes ++ [n] }, acc.2) ?ha ?hb hnd.2]
      · simp [List.filter_cons, hlt]
      case ha =>
        intro m hm hmem
        rcases List.mem_map.1 hmem with ⟨x, hx, hxm⟩
        rcases List.mem_append.1 hx with hx1 | hx1
        · exact h1 m (List.mem_cons_of_mem _ hm) (List.mem_map.2 ⟨x, hx1, hxm⟩)
        · rw [List.mem_singleton] at hx1
          subst hx1
          exact hnd.1 (hxm ▸ List.mem_map.2 ⟨m, hm, rfl⟩)
      case hb =>
        intro m hm
        exact h2 m (List.mem_cons_of_mem _ hm)
    · have hstep : splitStep mid acc n
          = (acc.1, { acc.2 with nodes := acc.2.nodes ++ [n] }) := by
        unfold splitStep
        rw [if_neg hlt, mapSet_eq_append _ _ (h2 n (List.mem_cons_self _ _))]
      rw [hstep]
      rw [ih (acc.1, { acc.2 with nodes := acc.2.nodes ++ [n] }) ?ha ?hb hnd.2]
      · simp [List.filter_cons, hlt]
      case ha =>
        intro m hm
        exact h1 m (List.mem_cons_of_mem _ hm)
      case hb =>
        intro m hm hmem
        rcases List.mem_map.1 hmem with ⟨x, hx, hxm⟩
        rcases List.mem_append.1 hx with hx1 | hx1
        · exact h2 m (List.mem_cons_of_mem _ hm) (List.mem_map.2 ⟨x, hx1, hxm⟩)
        · rw [List.mem_singleton] at hx1
          subst hx1
          exact hnd.1 (hxm ▸ List.mem_map.2 ⟨m, hm, rfl⟩)

theorem KBucket.split_eq (b : KBucket) (hnd : (b.nodes.map Node.id).Nodup) :
    b.split =
      (⟨b.rangeLower, (b.rangeLower + b.rangeUpper) / 2,
         b.nodes.filter (fun n => decide ((b.rangeLower + b.rangeUpper) / 2 > (n.id : ℚ))),
         [], b.ksize⟩,
       ⟨(b.rangeLower + b.rangeUpper) / 2 + 1, b.rangeUpper,
         b.nodes.filter (fun n => !(decide ((b.rangeLower + b.rangeUpper) / 2 > (n.id : ℚ)))),
         [], b.ksize⟩) := by
  unfold KBucket.split
  rw [foldl_splitStep_eq _ b.nodes _ (by simp) (by simp) hnd]
  simp

theorem sorted_drop_expired {α : Type} (key : α → Int) (c : Int) :
    ∀ l : List α, l.Pairwise (fun a b => key a ≤ key b) →
      l.drop ((l.filter (fun e => c ≥ key e)).length)
        = l.filter (fun e => ¬ (c ≥ key e)) := by
  intro l
  induction l with
  | nil => intro _; rfl
  | cons a t ih =>
    intro hp
    have hpt := List.Pairwise.of_cons hp
    by_cases ha : c ≥ key a
    · have h1 : (a :: t).filter (fun e => decide (c ≥ key e))
          = a :: t.filter (fun e => decide (c ≥ key e)) := by
        simp [List.filter_cons, ha]
      rw [h1, List.length_cons, List.drop_succ_cons, ih hpt]
      have h2 : (a :: t).filter (fun e => decide (¬ (c ≥ key e)))
          = t.filter (fun e => decide (¬ (c ≥ key e))) := by
        simp [List.filter_cons, ha]
      rw [h2]
    · have hall : ∀ x ∈ t, ¬ (c ≥ key x) := by
        intro x hx hcx
        exact ha (le_trans ((List.pairwise_cons.1 hp).1 x hx) hcx)
      have h1 : (a :: t).filter (fun e => decide (c ≥ key e)) = [] := by
        rw [List.filter_cons]
        simp only [ha, decide_False, if_false]
        exact List.filter_eq_nil_iff.2 (fun x hx => by simpa using hall x hx)
      rw [h1, List.length_nil, List.drop_zero]
      have h2 : (a :: t).filter (fun e => decide (¬ (c ≥ key e))) = a :: t := by
        rw [List.filter_cons]
        simp only [ha, not_false_iff, decide_True, if_true]
        congr 1
        exact List.filter_eq_self.2 (fun x hx => by simpa using hall x hx)
      rw [h2]

theorem Store.WF.mono {K V : Type} {s : Store K V} {a b : Int} (h : s.WF a)
    (hab : a ≤ b) : s.WF b :=
  ⟨h.1, h.2.1, fun e he => le_trans (h.2.2 e he) hab⟩

theorem Store.WF_drop {K V : Type} (s : Store K V) (now : Int) (n : Nat)
    (h : s.WF now) : Store.WF { s with entries := s.entries.drop n } now := by
  have hsub : s.entries.drop n
      |>.Sublist s.entries := List.drop_sublist n s.entries
  exact ⟨h.1.sublist hsub, (hsub.map (fun e => e.1)).nodup h.2.1,
    fun e he => h.2.2 e (hsub.mem he)⟩

theorem Store.WF_cull {K V : Type} (s : Store K V) (now now' : Int)
    (h : s.WF now) : (s.cull now').WF now :=
  Store.WF_drop s now _ h

theorem Store.cull_eq {K V : Type} (s : Store K V) (now : Int)
    (hp : s.entries.Pairwise (fun a b => a.2.1 ≤ b.2.1)) :
    (s.cull now).entries
      = s.entries.filter (fun e => ¬ (now - s.ttl ≥ e.2.1)) := by
  show s.entries.drop (s.olderThan now s.ttl).length = _
  have hlen : (s.olderThan now s.ttl).length
      = (s.entries.filter (fun e => now - s.ttl ≥ e.2.1)).length := by
    rw [Store.olderThan, List.length_map]
  rw [hlen]
  exact sorted_drop_expired (fun e => e.2.1) (now - s.ttl) s.entries hp

theorem Store.cull_sub {K V : Type} (s : Store K V) (now : Int) :
    ∀ e ∈ (s.cull now).entries, e ∈ s.entries := by
  intro e he
  exact (List.drop_sublist _ s.entries).mem he

theorem Store.cull_keeps {K V : Type} (s : Store K V) (now : Int)
    (e : K × Int × V) (hp : s.entries.Pairwise (fun a b => a.2.1 ≤ b.2.1))
    (he : e ∈ s.entries) (hkeep : ¬ (now - s.ttl ≥ e.2.1)) :
    e ∈ (s.cull now).entries := by
  rw [Store.cull_eq s now hp]
  exact List.mem_filter.2 ⟨he, by simpa using hkeep⟩

theorem deleteKey_sublist {K V : Type} [DecidableEq K]
    (l : List (K × Int × V)) (k : K) : (deleteKey l k).Sublist l := by
  unfold deleteKey
  split
  · exact List.filter_sublist l
  · exact List.Sublist.refl l

theorem deleteKey_keys {K V : Type} [DecidableEq K]
    (l : List (K × Int × V)) (k : K) : ∀ e ∈ deleteKey l k, e.1 ≠ k := by
  unfold deleteKey
  split
  · intro e he
    have := (List.mem_filter.1 he).2
    simpa using this
  · intro e he heq
    next hany =>
      exact hany (List.any_eq_true.2 ⟨e, he, by simpa using heq⟩)

theorem mem_deleteKey {K V : Type} [DecidableEq K]
    (l : List (K × Int × V)) (k : K) (e : K × Int × V)
    (he : e ∈ l) (hne : e.1 ≠ k) : e ∈ deleteKey l k := by
  unfold deleteKey
  split
  · exact List.mem_filter.2 ⟨he, by simpa using hne⟩
  · exact he

theorem Store.set_pre_WF {K V : Type} [DecidableEq K] (s : Store K V) (k : K)
    (v : V) (now now' : Int) (h : s.WF now) (hle : now ≤ now') :
    Store.WF { s with entries := deleteKey s.entries k ++ [(k, now', v)] } now' := by
  have hsub := deleteKey_sublist s.entries k
  refine ⟨?_, ?_, ?_⟩
  · rw [List.pairwise_append]
    refine ⟨h.1.sublist hsub, List.pairwise_singleton _ _, ?_⟩
    intro a ha b hb
    rw [List.mem_singleton] at hb
    subst hb
    exact le_trans (h.2.2 a (hsub.mem ha)) hle
  · rw [List.map_append, List.nodup_append]
    refine ⟨(hsub.map (fun e => e.1)).nodup h.2.1, List.nodup_singleton _, ?_⟩
    intro a ha hb
    simp only [List.map_cons, List.map_nil, List.mem_singleton] at hb
    rcases List.mem_map.1 ha with ⟨e, he, hek⟩
    exact deleteKey_keys s.entries k e he (hek.trans hb)
  · intro e he
    rcases List.mem_append.1 he with he | he
    · exact le_trans (h.2.2 e (hsub.mem he)) hle
    · rw [List.mem_singleton] at he
      subst he
      exact le_refl _

theorem Store.WF_set {K V : Type} [DecidableEq K] (s : Store K V) (k : K)
    (v : V) (now now' : Int) (h : s.WF now) (hle : now ≤ now') :
    (s.set k v now').WF now' :=
  Store.WF_cull _ now' now' (Store.set_pre_WF s k v now now' h hle)

theorem Store.set_ttl {K V : Type} [DecidableEq K] (s : Store K V) (k : K)
    (v : V) (now : Int) : (s.set k v now).ttl = s.ttl := rfl

theorem Store.set_sub {K V : Type} [DecidableEq K] (s : Store K V) (k : K)
    (v : V) (now : Int) :
    ∀ e ∈ (s.set k v now).entries, e ∈ s.entries ∨ e = (k, now, v) := by
  intro e he
  have he2 := Store.cull_sub _ now e he
  rcases List.mem_append.1 he2 with he3 | he3
  · exact Or.inl ((deleteKey_sublist s.entries k).mem he3)
  · exact Or.inr (List.mem_singleton.1 he3)

theorem Store.set_keeps {K V : Type} [DecidableEq K] (s : Store K V)
    (k' : K) (v' : V) (tcur cur : Int) (k : K) (t0 : Int) (v : V)
    (hwf : s.WF cur) (hc : cur ≤ tcur) (hmem : (k, t0, v) ∈ s.entries)
    (hne : k ≠ k') (hfresh : tcur < t0 + s.ttl) :
    (k, t0, v) ∈ (s.set k' v' tcur).entries := by
  have hpre := Store.set_pre_WF s k' v' cur tcur hwf hc
  refine Store.cull_keeps _ tcur _ hpre.1 ?_ ?_
  · exact List.mem_append.2 (Or.inl (mem_deleteKey s.entries k' _ hmem hne))
  · show ¬ (tcur - s.ttl ≥ t0)
    omega

theorem Store.set_onlyK {K V : Type} [DecidableEq K] (s : Store K V)
    (k' : K) (v' : V) (tcur : Int) (k : K) (z : K × Int × V)
    (hinv : ∀ e ∈ s.entries, e.1 = k → e = z) (hne : k' ≠ k) :
    ∀ e ∈ (s.set k' v' tcur).entries, e.1 = k → e = z := by
  intro e he hek
  rcases Store.set_sub s k' v' tcur e he with he2 | he2
  · exact hinv e he2 hek
  · subst he2
    exact absurd hek hne

theorem chainOK_set :
    ∀ (bs : List KBucket) (lo : ℚ) (i : Nat) (b b' : KBucket),
      bs.get? i = some b → b'.rangeLower = b.rangeLower →
      b'.rangeUpper = b.rangeUpper → ChainOK lo bs → ChainOK lo (bs.set i b') := by
  intro bs
  induction bs with
  | nil =>
    intro lo i b b' hget _ _ _
    exact absurd hget (by simp)
  | cons c rest ih =>
    intro lo i b b' hget hlo hhi hch
    cases i with
    | zero =>
      rw [List.get?_cons_zero, Option.some_inj] at hget
      subst hget
      rw [List.set_cons_zero]
      exact ⟨hlo.trans hch.1, hhi ▸ hch.2⟩
    | succ j =>
      rw [List.get?_cons_succ] at hget
      rw [List.set_cons_succ]
      exact ⟨hch.1, ih _ j b b' hget hlo hhi hch.2⟩

theorem chainOK_splice :
    ∀ (bs : List KBucket) (lo : ℚ) (i : Nat) (b one two : KBucket),
      bs.get? i = some b →
      one.rangeLower = b.rangeLower → two.rangeLower = one.rangeUpper + 1 →
      two.rangeUpper = b.rangeUpper → ChainOK lo bs →
      ChainOK lo (bs.take i ++ [one, two] ++ bs.drop (i + 1)) := by
  intro bs
  induction bs with
  | nil =>
    intro lo i b one two hget _ _ _ _
    exact absurd hget (by simp)
  | cons c rest ih =>
    intro lo i b one two hget h1 h2 h3 hch
    cases i with
    | zero =>
      rw [List.get?_cons_zero, Option.some_inj] at hget
      subst hget
      show ChainOK lo (one :: two :: rest)
      exact ⟨h1.trans hch.1, h2, h3 ▸ hch.2⟩
    | succ j =>
      rw [List.get?_cons_succ] at hget
      show ChainOK lo (c :: (rest.take j ++ [one, two] ++ rest.drop (j + 1)))
      exact ⟨hch.1, ih _ j b one two hget h1 h2 h3 hch.2⟩

theorem getBucketFor_spec :
    ∀ (bs : List KBucket) (lo : ℚ) (idq : ℚ),
      ChainOK lo bs → lo - 1 < idq → idq ≤ 2 ^ 160 →
      ∃ b, bs.get? (bs.findIdx (fun c => idq ≤ c.rangeUpper)) = some b ∧
        b.rangeLower - 1 ≤ idq ∧ idq ≤ b.rangeUpper := by
  intro bs
  induction bs with
  | nil =>
    intro lo idq hch hlo hhi
    exfalso
    have : lo = 2 ^ 160 + 1 := hch
    rw [this] at hlo
    have : (2 : ℚ) ^ 160 < idq := by linarith
    linarith
  | cons b rest ih =>
    intro lo idq hch hlo hhi
    rw [List.findIdx_cons]
    by_cases hb : idq ≤ b.rangeUpper
    · have hd : decide (idq ≤ b.rangeUpper) = true := by
        simpa using hb
      rw [hd, cond_true]
      refine ⟨b, by simp, ?_, hb⟩
      rw [hch.1]
      linarith
    · have hd : decide (idq ≤ b.rangeUpper) = false := by
        simpa using hb
      rw [hd, cond_false]
      obtain ⟨c, hc1, hc2, hc3⟩ := ih (b.rangeUpper + 1) idq hch.2 (by
        push_neg at hb
        linarith) hhi
      exact ⟨c, by rw [List.get?_cons_succ]; exact hc1, hc2, hc3⟩

theorem addNode_shape (b : KBucket) (n : Node) :
    ∃ ns rs, (b.addNode n).1 = { b with nodes := ns, replacementNodes := rs } ∧
      (∀ x ∈ ns, x ∈ b.nodes ∨ x = n) ∧
      (∀ x ∈ rs, x ∈ b.replacementNodes ∨ x = n) := by
  unfold KBucket.addNode
  split
  · refine ⟨mapSet (mapDelete b.nodes n.id) n, b.replacementNodes, rfl, ?_, ?_⟩
    · intro x hx
      rcases mem_mapSet _ _ _ hx with hx1 | hx1
      · exact Or.inl (List.mem_of_mem_filter hx1)
      · exact Or.inr hx1
    · intro x hx
      exact Or.inl hx
  · split
    · refine ⟨mapSet b.nodes n, b.replacementNodes, rfl, ?_, ?_⟩
      · intro x hx
        exact mem_mapSet _ _ _ hx
      · intro x hx
        exact Or.inl hx
    · refine ⟨b.nodes, osPush b.replacementNodes n, rfl, ?_, ?_⟩
      · intro x hx
        exact Or.inl hx
      · intro x hx
        rcases List.mem_append.1 hx with hx1 | hx1
        · exact Or.inl (List.mem_of_mem_filter hx1)
        · exact Or.inr (List.mem_singleton.1 hx1)

theorem rangedB_addNode (b : KBucket) (n : Node)
    (hr : rangedB b) (h1 : b.rangeLower - 1 ≤ (n.id : ℚ))
    (h2 : (n.id : ℚ) ≤ b.rangeUpper) : rangedB (b.addNode n).1 := by
  obtain ⟨ns, rs, heq, hns, hrs⟩ := addNode_shape b n
  rw [heq]
  intro x hx
  rcases List.mem_append.1 hx with hx1 | hx1
  · rcases hns x hx1 with hx2 | hx2
    · exact hr x (List.mem_append.2 (Or.inl hx2))
    · subst hx2
      exact ⟨h1, h2⟩
  · rcases hrs x hx1 with hx2 | hx2
    · exact hr x (List.mem_append.2 (Or.inr hx2))
    · subst hx2
      exact ⟨h1, h2⟩

theorem addNode_ranges (b : KBucket) (n : Node) :
    (b.addNode n).1.rangeLower = b.rangeLower ∧
    (b.addNode n).1.rangeUpper = b.rangeUpper := by
  obtain ⟨ns, rs, heq, _, _⟩ := addNode_shape b n
  rw [heq]
  exact ⟨rfl, rfl⟩

theorem removeNode_shape (b : KBucket) (n : Node) :
    ∃ ns rs, b.removeNode n = { b with nodes := ns, replacementNodes := rs } ∧
      (∀ x ∈ ns, x ∈ b.nodes ∨ x ∈ b.replacementNodes) ∧
      (∀ x ∈ rs, x ∈ b.replacementNodes) := by
  unfold KBucket.removeNode
  split
  · split
    next newnode hlast =>
      refine ⟨_, _, rfl, ?_, ?_⟩
      · intro x hx
        rcases mem_mapSet _ _ _ hx with hx1 | hx1
        · exact Or.inl (List.mem_of_mem_filter hx1)
        · subst hx1
          refine Or.inr ?_
          obtain ⟨hne, hx2⟩ :=
            List.mem_getLast?_eq_getLast (Option.mem_def.2 hlast)
          rw [hx2]
          exact List.getLast_mem hne
      · intro x hx
        exact List.dropLast_subset _ hx
    next hlast =>
      refine ⟨_, _, rfl, ?_, fun x hx => hx⟩
      intro x hx
      exact Or.inl (List.mem_of_mem_filter hx)
  · exact ⟨b.nodes, b.replacementNodes, rfl, fun x hx => Or.inl hx, fun x hx => hx⟩

theorem rangedB_removeNode (b : KBucket) (n : Node) (hr : rangedB b) :
    rangedB (b.removeNode n) := by
  obtain ⟨ns, rs, heq, hns, hrs⟩ := removeNode_shape b n
  rw [heq]
  intro x hx
  rcases List.mem_append.1 hx with hx1 | hx1
  · rcases hns x hx1 with hx2 | hx2
    · exact hr x (List.mem_append.2 (Or.inl hx2))
    · exact hr x (List.mem_append.2 (Or.inr hx2))
  · exact hr x (List.mem_append.2 (Or.inr (hrs x hx1)))

theorem removeNode_ranges (b : KBucket) (n : Node) :
    (b.removeNode n).rangeLower = b.rangeLower ∧
    (b.removeNode n).rangeUpper = b.rangeUpper := by
  obtain ⟨ns, rs, heq, _, _⟩ := removeNode_shape b n
  rw [heq]
  exact ⟨rfl, rfl⟩

theorem split_spec (b : KBucket) :
    (b.split).1.rangeLower = b.rangeLower ∧
    (b.split).1.rangeUpper = (b.rangeLower + b.rangeUpper) / 2 ∧
    (b.split).2.rangeLower = (b.rangeLower + b.rangeUpper) / 2 + 1 ∧
    (b.split).2.rangeUpper = b.rangeUpper ∧
    (b.split).1.replacementNodes = [] ∧
    (b.split).2.replacementNodes = [] ∧
    (∀ x ∈ (b.split).1.nodes, x ∈ b.nodes ∧ (x.id : ℚ) < (b.rangeLower + b.rangeUpper) / 2) ∧
    (∀ x ∈ (b.split).2.nodes, x ∈ b.nodes ∧ (b.rangeLower + b.rangeUpper) / 2 ≤ (x.id : ℚ)) := by
  obtain ⟨ns1, ns2, heq, hm1, hm2⟩ :=
    foldl_splitStep_shape ((b.rangeLower + b.rangeUpper) / 2) b.nodes
      (⟨b.rangeLower, (b.rangeLower + b.rangeUpper) / 2, [], [], b.ksize⟩,
       ⟨(b.rangeLower + b.rangeUpper) / 2 + 1, b.rangeUpper, [], [], b.ksize⟩)
  have hsplit : b.split
      = ({ (⟨b.rangeLower, (b.rangeLower + b.rangeUpper) / 2, [], [], b.ksize⟩ : KBucket)
            with nodes := ns1 },
         { (⟨(b.rangeLower + b.rangeUpper) / 2 + 1, b.rangeUpper, [], [], b.ksize⟩ : KBucket)
            with nodes := ns2 }) := by
    rw [KBucket.split]
    exact heq
  rw [hsplit]
  refine ⟨rfl, rfl, rfl, rfl, rfl, rfl, ?_, ?_⟩
  · intro x hx
    rcases hm1 x hx with hx1 | hx1
    · exact absurd hx1 (List.not_mem_nil x)
    · exact hx1
  · intro x hx
    rcases hm2 x hx with hx1 | hx1
    · exact absurd hx1 (List.not_mem_nil x)
    · exact ⟨hx1.1, hx1.2⟩

theorem rangedB_split (b : KBucket) (hr : rangedB b) :
    rangedB (b.split).1 ∧ rangedB (b.split).2 := by
  obtain ⟨hl1, hu1, hl2, hu2, hrp1, hrp2, hm1, hm2⟩ := split_spec b
  constructor
  · intro x hx
    rw [hrp1, List.append_nil] at hx
    obtain ⟨hxb, hxlt⟩ := hm1 x hx
    have := hr x (List.mem_append.2 (Or.inl hxb))
    rw [hl1, hu1]
    exact ⟨this.1, le_of_lt hxlt⟩
  · intro x hx
    rw [hrp2, List.append_nil] at hx
    obtain ⟨hxb, hxge⟩ := hm2 x hx
    have := hr x (List.mem_append.2 (Or.inl hxb))
    rw [hl2, hu2]
    constructor
    · linarith
    · exact this.2

/-- The amended C2 bucket-list invariant. -/
def RTInv (t : RoutingTable) : Prop :=
  ChainOK 0 t.buckets ∧ ∀ b ∈ t.buckets, rangedB b

theorem RTInv_flush (self : Node) (ksize : Nat) : RTInv (RoutingTable.flush self ksize) := by
  constructor
  · exact ⟨rfl, by norm_num [ChainOK]⟩
  · intro b hb
    simp only [RoutingTable.flush, List.mem_singleton] at hb
    subst hb
    intro x hx
    exact absurd hx (List.not_mem_nil x)

theorem RTInv_splitBucket (t : RoutingTable) (i : Nat) (h : RTInv t) :
    RTInv (t.splitBucket i) := by
  unfold RoutingTable.splitBucket
  split
  · exact h
  next b hget =>
    obtain ⟨hl1, hu1, hl2, hu2, _, _, _, _⟩ := split_spec b
    constructor
    · refine chainOK_splice t.buckets 0 i b _ _ hget hl1 ?_ hu2 h.1
      rw [hl2, hu1]
    · intro c hc
      rcases List.mem_append.1 hc with hc1 | hc1
      · rcases List.mem_append.1 hc1 with hc2 | hc2
        · exact h.2 c ((t.buckets.take_sublist i).mem hc2)
        · have hrb : rangedB b := h.2 b (List.get?_mem hget)
          rcases List.mem_cons.1 hc2 with rfl | hc3
          · exact (rangedB_split b hrb).1
          · rw [List.mem_singleton] at hc3
            subst hc3
            exact (rangedB_split b hrb).2
      · exact h.2 c ((t.buckets.drop_sublist (i + 1)).mem hc1)

theorem RTInv_addContact (self : Node) (n : Node) (hid : n.id < 2 ^ 160) :
    ∀ (fuel : Nat) (t : RoutingTable), RTInv t → RTInv (t.addContact n fuel) := by
  intro fuel
  induction fuel with
  | zero =>
    intro t h
    exact h
  | succ fuel ih =>
    intro t h
    show RTInv (t.addContact n (fuel + 1))
    unfold RoutingTable.addContact
    cases hget : t.buckets.get? (t.getBucketFor n) with
    | none =>
      simp only [hget]
      exact h
    | some bucket =>
      simp only [hget]
      have hidq : ((n.id : ℚ)) ≤ 2 ^ 160 := by
        have h2 : ((n.id : ℚ)) < ((2 ^ 160 : Nat) : ℚ) := by
          exact_mod_cast hid
        push_cast at h2
        linarith
      obtain ⟨b2, hb2get, hb2lo, hb2hi⟩ :=
        getBucketFor_spec t.buckets 0 (n.id : ℚ) h.1 (by
          have hc := Nat.cast_nonneg (α := ℚ) n.id
          linarith) hidq
      have hb2get2 : t.buckets.get? (t.getBucketFor n) = some b2 := hb2get
      have hb2 : b2 = bucket := by
        rw [hget] at hb2get2
        exact (Option.some_inj.1 hb2get2).symm
      subst hb2
      have ht' : RTInv { t with buckets := t.buckets.set (t.getBucketFor n) (b2.addNode n).1 } := by
        constructor
        · exact chainOK_set t.buckets 0 _ b2 _ hget (addNode_ranges b2 n).1
            (addNode_ranges b2 n).2 h.1
        · intro c hc
          rcases List.mem_or_eq_of_mem_set hc with hc1 | hc1
          · exact h.2 c hc1
          · subst hc1
            exact rangedB_addNode b2 n (h.2 b2 (List.get?_mem hget)) hb2lo hb2hi
      by_cases hr2 : (b2.addNode n).2 = true
      · rw [if_pos hr2]
        exact ht'
      · rw [if_neg hr2]
        by_cases hcond : (b2.hasInRange t.node || b2.depth % 5 != 0) = true
        · rw [if_pos hcond]
          exact ih _ (RTInv_splitBucket _ _ ht')
        · rw [if_neg hcond]
          exact ht'

theorem RTInv_removeContact (t : RoutingTable) (n : Node) (h : RTInv t) :
    RTInv (t.removeContact n) := by
  unfold RoutingTable.removeContact
  split
  · exact h
  next b hget =>
    constructor
    · exact chainOK_set t.buckets 0 _ b _ hget (removeNode_ranges b n).1
        (removeNode_ranges b n).2 h.1
    · intro c hc
      rcases List.mem_or_eq_of_mem_set hc with hc1 | hc1
      · exact h.2 c hc1
      · subst hc1
        exact rangedB_removeNode b n (h.2 b (List.get?_mem hget))

theorem addContact_step_added (t : RoutingTable) (n : Node) (fuel : Nat) (b : KBucket)
    (hget : t.buckets.get? (t.getBucketFor n) = some b)
    (hok : (b.addNode n).2 = true) :
    t.addContact n (fuel + 1)
      = { t with buckets := t.buckets.set (t.getBucketFor n) (b.addNode n).1 } := by
  unfold RoutingTable.addContact
  simp only [hget]
  rw [if_pos hok]

theorem addContact_step_split (t : RoutingTable) (n : Node) (fuel : Nat) (b : KBucket)
    (hget : t.buckets.get? (t.getBucketFor n) = some b)
    (hok : (b.addNode n).2 = false)
    (hcond : (b.hasInRange t.node || b.depth % 5 != 0) = true) :
    t.addContact n (fuel + 1)
      = ({ t with buckets := t.buckets.set (t.getBucketFor n) (b.addNode n).1
          }.splitBucket (t.getBucketFor n)).addContact n fuel := by
  unfold RoutingTable.addContact
  simp only [hget]
  rw [if_neg (by rw [hok]; exact Bool.false_ne_true), if_pos hcond]
  cases fuel <;> rfl

theorem pairwise_getD_last_max {α : Type} (f : α → Nat) (d : α) :
    ∀ (l : List α), l.Pairwise (fun a b => f a ≤ f b) →
      (∀ x ∈ l, f x ≤ f (l.getD (l.length - 1) d)) ∧
      (l ≠ [] → l.getD (l.length - 1) d ∈ l) := by
  intro l
  induction l with
  | nil =>
    intro _
    exact ⟨fun x hx => absurd hx (List.not_mem_nil x), fun h => absurd rfl h⟩
  | cons a t ih =>
    intro hp
    cases t with
    | nil =>
      refine ⟨?_, fun _ => List.mem_singleton.2 rfl⟩
      intro x hx
      rw [List.mem_singleton] at hx
      subst hx
      exact le_refl _
    | cons b t2 =>
      obtain ⟨ihmax, ihmem⟩ := ih (List.Pairwise.of_cons hp)
      have hgd : (a :: b :: t2).getD ((a :: b :: t2).length - 1) d
          = (b :: t2).getD ((b :: t2).length - 1) d := by
        simp only [List.length_cons, Nat.add_sub_cancel]
        rw [List.getD_cons_succ]
      constructor
      · intro x hx
        rw [hgd]
        rcases List.mem_cons.1 hx with rfl | hx2
        · exact le_trans ((List.pairwise_cons.1 hp).1 _
            (ihmem (by simp))) (le_refl _)
        · exact ihmax x hx2
      · intro _
        rw [hgd]
        exact List.mem_cons_of_mem _ (ihmem (by simp))

theorem pairwise_getD_head_min {α : Type} (f : α → Nat) (d : α) (l : List α)
    (hp : l.Pairwise (fun a b => f a ≤ f b)) :
    (∀ x ∈ l, f (l.getD 0 d) ≤ f x) ∧ (l ≠ [] → l.getD 0 d ∈ l) := by
  cases l with
  | nil =>
    exact ⟨fun x hx => absurd hx (List.not_mem_nil x), fun h => absurd rfl h⟩
  | cons a t =>
    refine ⟨?_, fun _ => List.mem_cons_self _ _⟩
    intro x hx
    rcases List.mem_cons.1 hx with rfl | hx2
    · exact le_refl _
    · exact (List.pairwise_cons.1 hp).1 x hx2

theorem nsmallest_map_pairwise (node : Node) (el : List Node) (kk : Nat) :
    ((nsmallest (el.map (fun nb => (node.distanceTo nb, nb))) kk).map
      (fun e => e.2)).Pairwise
      (fun a b => node.distanceTo a ≤ node.distanceTo b) := by
  set pairs := el.map (fun nb => (node.distanceTo nb, nb)) with hpairs
  have hmem : ∀ e ∈ pairs, e.1 = node.distanceTo e.2 := by
    intro e he
    rcases List.mem_map.1 he with ⟨nb, _, rfl⟩
    rfl
  have hsorted : (pairs.insertionSort distLe).Sorted distLe :=
    List.sorted_insertionSort distLe pairs
  have hperm : List.Perm (pairs.insertionSort distLe) pairs :=
    List.perm_insertionSort distLe pairs
  have htake : ((pairs.insertionSort distLe).take kk).Pairwise distLe :=
    hsorted.sublist ((pairs.insertionSort distLe).take_sublist kk)
  rw [List.pairwise_map]
  refine List.Pairwise.imp_of_mem ?_ htake
  intro a b ha hb hab
  have hmema : a ∈ pairs :=
    hperm.mem_iff.1 (((pairs.insertionSort distLe).take_sublist kk).mem ha)
  have hmemb : b ∈ pairs :=
    hperm.mem_iff.1 (((pairs.insertionSort distLe).take_sublist kk).mem hb)
  rw [← hmem a hmema, ← hmem b hmemb]
  exact hab

theorem findNeighbors_pairwise (t : RoutingTable) (node : Node) (k : Option Nat)
    (ex : Option Node) :
    (t.findNeighbors node k ex).Pairwise
      (fun a b => node.distanceTo a ≤ node.distanceTo b) := by
  unfold RoutingTable.findNeighbors
  exact nsmallest_map_pairwise node _ _

theorem distanceTo_comm (a b : Node) : a.distanceTo b = b.distanceTo a :=
  Nat.xor_comm _ _

theorem welcomeCond_iff {K V : Type} (digest : K → Nat) (p : ProtocolState K V)
    (node : Node) (kv : K × V) :
    welcomeCond digest p node kv = true ↔
      (p.router.findNeighbors ⟨digest kv.1, "", 0⟩ none none = [] ∨
        ((∃ f ∈ p.router.findNeighbors ⟨digest kv.1, "", 0⟩ none none,
            (∀ m ∈ p.router.findNeighbors ⟨digest kv.1, "", 0⟩ none none,
              m.distanceTo ⟨digest kv.1, "", 0⟩ ≤ f.distanceTo ⟨digest kv.1, "", 0⟩) ∧
            node.distanceTo ⟨digest kv.1, "", 0⟩ < f.distanceTo ⟨digest kv.1, "", 0⟩) ∧
         (∃ c ∈ p.router.findNeighbors ⟨digest kv.1, "", 0⟩ none none,
            (∀ m ∈ p.router.findNeighbors ⟨digest kv.1, "", 0⟩ none none,
              c.distanceTo ⟨digest kv.1, "", 0⟩ ≤ m.distanceTo ⟨digest kv.1, "", 0⟩) ∧
            p.sourceNode.distanceTo ⟨digest kv.1, "", 0⟩
              < c.distanceTo ⟨digest kv.1, "", 0⟩))) := by
  have hpw := findNeighbors_pairwise p.router ⟨digest kv.1, "", 0⟩ none none
  have hpw2 : (p.router.findNeighbors ⟨digest kv.1, "", 0⟩ none none).Pairwise
      (fun a b => a.distanceTo ⟨digest kv.1, "", 0⟩ ≤ b.distanceTo ⟨digest kv.1, "", 0⟩) := by
    refine hpw.imp ?_
    intro a b h
    rw [distanceTo_comm a _, distanceTo_comm b _]
    exact h
  obtain ⟨hmax, hmaxmem⟩ := pairwise_getD_last_max
    (fun m => m.distanceTo ⟨digest kv.1, "", 0⟩) ⟨0, "", 0⟩
    (p.router.findNeighbors ⟨digest kv.1, "", 0⟩ none none) hpw2
  obtain ⟨hmin, hminmem⟩ := pairwise_getD_head_min
    (fun m => m.distanceTo ⟨digest kv.1, "", 0⟩) ⟨0, "", 0⟩
    (p.router.findNeighbors ⟨digest kv.1, "", 0⟩ none none) hpw2
  unfold welcomeCond
  by_cases hlen : (p.router.findNeighbors ⟨digest kv.1, "", 0⟩ none none).length = 0
  · rw [if_pos hlen]
    have hnil : p.router.findNeighbors ⟨digest kv.1, "", 0⟩ none none = [] :=
      List.length_eq_zero.1 hlen
    simp [hnil]
  · rw [if_neg hlen]
    have hnenil : p.router.findNeighbors ⟨digest kv.1, "", 0⟩ none none ≠ [] := by
      intro h
      rw [h] at hlen
      exact hlen rfl
    rw [Bool.and_eq_true, decide_eq_true_eq, decide_eq_true_eq]
    constructor
    · rintro ⟨hA, hB⟩
      refine Or.inr ⟨⟨_, hmaxmem hnenil, fun m hm => hmax m hm, hA⟩,
        ⟨_, hminmem hnenil, fun m hm => hmin m hm, hB⟩⟩
    · rintro (hnil | ⟨⟨f, hf, hfmax, hfA⟩, ⟨c, hc, hcmin, hcB⟩⟩)
      · exact absurd hnil hnenil
      · constructor
        · exact lt_of_lt_of_le hfA (hmax f hf)
        · exact lt_of_lt_of_le hcB (hcmin _ (hminmem hnenil))

theorem find_key_unique {K V : Type} [DecidableEq K] :
    ∀ (l : List (K × Int × V)) (k : K) (z : K × Int × V),
      z ∈ l → z.1 = k → (l.map (fun e => e.1)).Nodup →
      l.find? (fun e => e.1 == k) = some z := by
  intro l
  induction l with
  | nil =>
    intro k z hz _ _
    exact absurd hz (List.not_mem_nil z)
  | cons a t ih =>
    intro k z hz hk hn
    by_cases ha : a.1 = k
    · have hza : z = a := by
        rcases List.mem_cons.1 hz with rfl | hzt
        · rfl
        · exfalso
          have hkmem : a.1 ∈ t.map (fun e => e.1) := by
            rw [ha, ← hk]
            exact List.mem_map.2 ⟨z, hzt, rfl⟩
          rw [List.map_cons, List.nodup_cons] at hn
          exact hn.1 hkmem
      subst hza
      exact List.find?_cons_of_pos _ (by simpa using ha)
    · rcases List.mem_cons.1 hz with rfl | hzt
      · exact absurd hk ha
      · rw [List.find?_cons_of_neg _ (by simpa using ha)]
        rw [List.map_cons, List.nodup_cons] at hn
        exact ih k z hzt hk hn.2

theorem runOps_preserved {K V : Type} [DecidableEq K] (k : K) (t0 : Int) (v : V) :
    ∀ (ops : List (Int × SOp K V)) (s : Store K V) (cur : Int),
      s.WF cur →
      (∀ e ∈ s.entries, e.1 = k → e = (k, t0, v)) →
      (∀ op ∈ ops, cur ≤ op.1) →
      ((ops.map Prod.fst).Sorted (· ≤ ·)) →
      (∀ op ∈ ops, ∀ k' v', op.2 = SOp.setOp k' v' → k' ≠ k) →
      (runOps s ops).ttl = s.ttl ∧
      (∀ tf, cur ≤ tf → (∀ op ∈ ops, op.1 ≤ tf) → (runOps s ops).WF tf) ∧
      (∀ e ∈ (runOps s ops).entries, e.1 = k → e = (k, t0, v)) ∧
      ((k, t0, v) ∈ s.entries → (∀ op ∈ ops, op.1 < t0 + s.ttl) →
        (k, t0, v) ∈ (runOps s ops).entries) := by
  intro ops
  induction ops with
  | nil =>
    intro s cur hwf honly _ _ _
    exact ⟨rfl, fun _ htf _ => hwf.mono htf, honly, fun hm _ => hm⟩
  | cons op rest ih =>
    intro s cur hwf honly hge hsorted hnk
    obtain ⟨tcur, o⟩ := op
    have hcur : cur ≤ tcur := hge _ (List.mem_cons_self _ _)
    have hsorted2 : List.Sorted (fun a b : Int => a ≤ b) (tcur :: rest.map Prod.fst) := by
      simpa using hsorted
    have hsc := List.sorted_cons.1 hsorted2
    have hrestge : ∀ op ∈ rest, tcur ≤ op.1 := by
      intro op hop
      exact hsc.1 _ (List.mem_map.2 ⟨op, hop, rfl⟩)
    have hrestsorted : (rest.map Prod.fst).Sorted (· ≤ ·) := hsc.2
    have hrestnk : ∀ op ∈ rest, ∀ k' v', op.2 = SOp.setOp k' v' → k' ≠ k :=
      fun op hop => hnk op (List.mem_cons_of_mem _ hop)
    cases o with
    | setOp k' v' =>
      have hne : k' ≠ k := hnk (tcur, .setOp k' v') (List.mem_cons_self _ _) k' v' rfl
      have hwf' : (s.set k' v' tcur).WF tcur := Store.WF_set s k' v' cur tcur hwf hcur
      have honly' := Store.set_onlyK s k' v' tcur k _ honly hne
      obtain ⟨ih1, ih2, ih3, ih4⟩ :=
        ih (s.set k' v' tcur) tcur hwf' honly' hrestge hrestsorted hrestnk
      refine ⟨ih1, ?_, ih3, ?_⟩
      · intro tf htf hops
        exact ih2 tf (hops _ (List.mem_cons_self _ _)) (fun op hop =>
          hops op (List.mem_cons_of_mem _ hop))
      · intro hm hlt
        have hmem' : (k, t0, v) ∈ (s.set k' v' tcur).entries :=
          Store.set_keeps s k' v' tcur cur k t0 v hwf hcur hm
            (fun h => hne h.symm) (hlt _ (List.mem_cons_self _ _))
        exact ih4 hmem' (fun op hop => hlt op (List.mem_cons_of_mem _ hop))
    | getOp k'' =>
      have hstep : runOp s (tcur, SOp.getOp k'') = s.cull tcur := rfl
      have hwf' : (s.cull tcur).WF tcur :=
        Store.WF_cull s tcur tcur (hwf.mono hcur)
      have honly' : ∀ e ∈ (s.cull tcur).entries, e.1 = k → e = (k, t0, v) :=
        fun e he hek => honly e (Store.cull_sub s tcur e he) hek
      obtain ⟨ih1, ih2, ih3, ih4⟩ :=
        ih (s.cull tcur) tcur hwf' honly' hrestge hrestsorted hrestnk
      refine ⟨ih1, ?_, ih3, ?_⟩
      · intro tf htf hops
        exact ih2 tf (hops _ (List.mem_cons_self _ _)) (fun op hop =>
          hops op (List.mem_cons_of_mem _ hop))
      · intro hm hlt
        have hfresh := hlt _ (List.mem_cons_self _ _)
        have hmem' : (k, t0, v) ∈ (s.cull tcur).entries :=
          Store.cull_keeps s tcur _ hwf.1 hm (by show ¬ (tcur - s.ttl ≥ t0); omega)
        exact ih4 hmem' (fun op hop => hlt op (List.mem_cons_of_mem _ hop))

theorem NodeHeap.has_iff (h : NodeHeap) (n : Node) : h.has n = true ↔ n.id ∈ h.ids := by
  simp only [NodeHeap.has, NodeHeap.ids, List.any_eq_true, List.mem_map, beq_iff_eq]

theorem NodeHeap.push1_node (h : NodeHeap) (n : Node) : (h.push1 n).node = h.node := by
  unfold NodeHeap.push1
  split <;> rfl

theorem NodeHeap.push1_maxsize (h : NodeHeap) (n : Node) :
    (h.push1 n).maxsize = h.maxsize := by
  unfold NodeHeap.push1
  split <;> rfl

theorem NodeHeap.push_node (h : NodeHeap) (ns : List Node) : (h.push ns).node = h.node := by
  induction ns generalizing h with
  | nil => rfl
  | cons x xs ih => simpa [NodeHeap.push, NodeHeap.push1_node] using ih (h.push1 x)

theorem NodeHeap.push_maxsize (h : NodeHeap) (ns : List Node) :
    (h.push ns).maxsize = h.maxsize := by
  induction ns generalizing h with
  | nil => rfl
  | cons x xs ih => simpa [NodeHeap.push, NodeHeap.push1_maxsize] using ih (h.push1 x)

theorem NodeHeap.mem_ids_push1 (h : NodeHeap) (n : Node) (a : Nat) :
    a ∈ (h.push1 n).ids ↔ a ∈ h.ids ∨ a = n.id := by
  by_cases hc : h.has n = true
  · have hmem := (NodeHeap.has_iff h n).1 hc
    unfold NodeHeap.push1
    rw [if_pos hc]
    constructor
    · exact Or.inl
    · rintro (ha | rfl)
      · exact ha
      · exact hmem
  · unfold NodeHeap.push1
    rw [if_neg hc]
    simp [NodeHeap.ids]

theorem NodeHeap.mem_ids_push (h : NodeHeap) (ns : List Node) (a : Nat) :
    a ∈ (h.push ns).ids ↔ a ∈ h.ids ∨ a ∈ ns.map Node.id := by
  induction ns generalizing h with
  | nil => simp [NodeHeap.push]
  | cons x xs ih =>
      show a ∈ ((h.push1 x).push xs).ids ↔ _
      rw [ih (h.push1 x), NodeHeap.mem_ids_push1]
      simp only [List.map_cons, List.mem_cons]
      tauto

theorem NodeHeap.mem_heap_push1 (h : NodeHeap) (n : Node) (e : Nat × Node)
    (he : e ∈ (h.push1 n).heap) : e ∈ h.heap ∨ e = (h.node.distanceTo n, n) := by
  unfold NodeHeap.push1 at he
  by_cases hc : h.has n = true
  · rw [if_pos hc] at he
    exact Or.inl he
  · rw [if_neg hc] at he
    simp only [List.mem_append, List.mem_singleton] at he
    exact he

theorem NodeHeap.mem_heap_push (h : NodeHeap) (ns : List Node) (e : Nat × Node)
    (he : e ∈ (h.push ns).heap) :
    e ∈ h.heap ∨ (e.2 ∈ ns ∧ e.1 = h.node.distanceTo e.2) := by
  induction ns generalizing h with
  | nil => exact Or.inl he
  | cons x xs ih =>
      rcases ih (h.push1 x) he with hin | hin
      · rcases NodeHeap.mem_heap_push1 h x e hin with hin' | hin'
        · exact Or.inl hin'
        · subst hin'
          exact Or.inr ⟨List.mem_cons_self _ _, rfl⟩
      · rw [NodeHeap.push1_node] at hin
        exact Or.inr ⟨List.mem_cons_of_mem _ hin.1, hin.2⟩

theorem NodeHeap.WF_push1 (h : NodeHeap) (n : Node) (hw : h.WF) : (h.push1 n).WF := by
  obtain ⟨hn, hd⟩ := hw
  by_cases hc : h.has n = true
  · unfold NodeHeap.push1
    rw [if_pos hc]
    exact ⟨hn, hd⟩
  · have hnotin : n.id ∉ h.ids := fun hmem => hc ((NodeHeap.has_iff h n).2 hmem)
    unfold NodeHeap.push1
    rw [if_neg hc]
    constructor
    · show (List.map _ (h.heap ++ [(h.node.distanceTo n, n)])).Nodup
      rw [List.map_append, List.nodup_append]
      refine ⟨hn, List.nodup_singleton _, ?_⟩
      intro a ha hb
      simp only [List.map_cons, List.map_nil, List.mem_singleton] at hb
      subst hb
      exact hnotin ha
    · intro e he
      rcases List.mem_append.1 he with he | he
      · exact hd e he
      · rw [List.mem_singleton] at he
        subst he
        rfl

theorem NodeHeap.WF_push (h : NodeHeap) (ns : List Node) (hw : h.WF) : (h.push ns).WF := by
  induction ns generalizing h with
  | nil => exact hw
  | cons x xs ih => exact ih (h.push1 x) (NodeHeap.WF_push1 h x hw)

theorem NodeHeap.WF_mk0 (node : Node) (maxsize : Nat) : (NodeHeap.mk0 node maxsize).WF := by
  exact ⟨List.nodup_nil, fun e he => absurd he (List.not_mem_nil e)⟩

/-- C7: for a `NodeHeap` of capacity `maxsize` around target `T`, after an
arbitrary sequence of pushes, iterating the heap yields
`min (number of distinct pushed ids) maxsize` nodes, each of them a pushed
node, in strictly ascending order of XOR distance to `T`, and they are exactly
the nearest pushed nodes: any pushed node strictly closer to `T` than a
yielded node is itself yielded (by id). -/
theorem C7_nodeheap_nearest_k (T : Node) (maxsize : Nat) (ns : List Node) :
    ((NodeHeap.mk0 T maxsize).push ns).iterate.length
        = min ((ns.map Node.id).dedup.length) maxsize ∧
    ((NodeHeap.mk0 T maxsize).push ns).iterate.Sorted
        (fun a b => T.distanceTo a < T.distanceTo b) ∧
    (∀ x ∈ ((NodeHeap.mk0 T maxsize).push ns).iterate, x ∈ ns) ∧
    (∀ x ∈ ((NodeHeap.mk0 T maxsize).push ns).iterate, ∀ y ∈ ns,
        T.distanceTo y < T.distanceTo x →
        y.id ∈ ((NodeHeap.mk0 T maxsize).push ns).iterate.map Node.id) := by
  set h := (NodeHeap.mk0 T maxsize).push ns with hh
  have hWF : h.WF := NodeHeap.WF_push _ _ (NodeHeap.WF_mk0 T maxsize)
  have hnode : h.node = T := NodeHeap.push_node _ _
  have hmax : h.maxsize = maxsize := NodeHeap.push_maxsize _ _
  have hdist : ∀ e ∈ h.heap, e.1 = T.distanceTo e.2 := by
    intro e he
    rw [← hnode]
    exact hWF.2 e he
  have hmemns : ∀ e ∈ h.heap, e.2 ∈ ns := by
    intro e he
    rcases NodeHeap.mem_heap_push _ _ _ he with hin | hin
    · exact absurd hin (List.not_mem_nil e)
    · exact hin.1
  have hidmem : ∀ a : Nat, a ∈ h.ids ↔ a ∈ ns.map Node.id := by
    intro a
    rw [hh, NodeHeap.mem_ids_push]
    simp [NodeHeap.mk0, NodeHeap.ids]
  set sorted := h.heap.insertionSort distLe with hs
  have hperm : List.Perm sorted h.heap := List.perm_insertionSort distLe h.heap
  have hsorted : sorted.Sorted distLe := List.sorted_insertionSort distLe h.heap
  have hiter : h.iterate = (sorted.take maxsize).map (fun e => e.2) := by
    rw [NodeHeap.iterate, nsmallest, hmax, hs]
  have hids_sorted : (sorted.map (fun e => e.2.id)).Nodup := by
    have h1 : (h.heap.map (fun e => e.2.id)).Nodup := hWF.1
    exact ((hperm.map (fun e => e.2.id)).nodup_iff).2 h1
  have htke : ∀ e ∈ sorted.take maxsize, e ∈ h.heap := by
    intro e he
    exact hperm.mem_iff.1 ((sorted.take_sublist maxsize).mem he)
  refine ⟨?_, ?_, ?_, ?_⟩
  · rw [hiter, List.length_map, List.length_take, hperm.length_eq]
    have hlen : h.heap.length = h.ids.length := by
      rw [NodeHeap.ids, List.length_map]
    rw [hlen]
    have hcard : h.ids.length = h.ids.toFinset.card :=
      (List.toFinset_card_of_nodup hWF.1).symm
    have hfs : h.ids.toFinset = (ns.map Node.id).toFinset := by
      ext a
      simp only [List.mem_toFinset]
      exact hidmem a
    rw [hcard, hfs, List.card_toFinset, Nat.min_comm]
  · rw [hiter, List.Sorted, List.pairwise_map]
    have hp1 : (sorted.take maxsize).Pairwise distLe :=
      hsorted.sublist (sorted.take_sublist maxsize)
    have hp2 : (sorted.take maxsize).Pairwise (fun a b => a.2.id ≠ b.2.id) := by
      have hnd : ((sorted.take maxsize).map (fun e => e.2.id)).Nodup := by
        rw [List.map_take]
        exact ((sorted.map (fun e => e.2.id)).take_sublist maxsize).nodup hids_sorted
      exact List.pairwise_map.mp hnd
    refine List.Pairwise.imp_of_mem ?_ (hp1.and hp2)
    intro a b ha hb hab
    have hda := hdist a (htke a ha)
    have hdb := hdist b (htke b hb)
    have hle : T.distanceTo a.2 ≤ T.distanceTo b.2 := by
      rw [← hda, ← hdb]
      exact hab.1
    rcases lt_or_eq_of_le hle with hlt | heq
    · exact hlt
    · exact absurd (distanceTo_inj T heq) hab.2
  · intro x hx
    rw [hiter] at hx
    rcases List.mem_map.1 hx with ⟨e, he, rfl⟩
    exact hmemns e (htke e he)
  · intro x hx y hy hylt
    rcases List.mem_map.1 (hiter ▸ hx) with ⟨ex, hex, hex2⟩
    have hexheap := htke ex hex
    have hyid : y.id ∈ h.ids := (hidmem y.id).2 (List.mem_map.2 ⟨y, hy, rfl⟩)
    rcases List.mem_map.1 hyid with ⟨ey, heyheap, heyid⟩
    have heydist : ey.1 = T.distanceTo y := by
      rw [hdist ey heyheap, Node.distanceTo, Node.distanceTo, heyid]
    have heysorted : ey ∈ sorted := hperm.mem_iff.2 heyheap
    rcases List.mem_append.1 ((sorted.take_append_drop maxsize) ▸ heysorted) with
      heytake | heydrop
    · rw [hiter, List.map_map]
      exact List.mem_map.2 ⟨ey, heytake, heyid⟩
    · exfalso
      have hrel : distLe ex ey :=
        hsorted.rel_of_mem_take_of_mem_drop hex heydrop
      exact absurd hylt (not_lt.2 (by
        rw [← heydist, ← hex2, ← hdist ex hexheap]
        exact hrel))

/-- C10: `NodeHeap.push` deduplicates by node id only.  Pushing a node whose
id already appears in the heap leaves the heap state completely unchanged,
even when the pushed node's host or port differ from the stored entry's; and
a heap built by pushes never holds two entries with the same id. -/
theorem C10_push_dedup_by_id (h : NodeHeap) (n : Node) (T : Node) (maxsize : Nat)
    (ns : List Node) :
    ((∃ e ∈ h.heap, e.2.id = n.id) → h.push1 n = h) ∧
    ((NodeHeap.mk0 T maxsize).push ns).ids.Nodup := by
  constructor
  · rintro ⟨e, he, hid⟩
    have hc : h.has n = true :=
      (NodeHeap.has_iff h n).2 (List.mem_map.2 ⟨e, he, hid⟩)
    unfold NodeHeap.push1
    rw [if_pos hc]
  · exact (NodeHeap.WF_push _ ns (NodeHeap.WF_mk0 T maxsize)).1

/-- Witness for C10 at a concrete input: the stored entry and the pushed node
share id 5 but differ in ip and port, and the push is a no-op. -/
theorem C10_push_dedup_by_id_witness :
    (NodeHeap.push1 ⟨⟨0, "", 0⟩, [(5, ⟨5, "a", 1⟩)], [], 2⟩ ⟨5, "b", 9⟩
        = ⟨⟨0, "", 0⟩, [(5, ⟨5, "a", 1⟩)], [], 2⟩) ∧
    ((NodeHeap.mk0 ⟨0, "", 0⟩ 2).push [⟨5, "b", 9⟩]).ids.Nodup := by
  refine ⟨?_, ?_⟩
  · exact (C10_push_dedup_by_id ⟨⟨0, "", 0⟩, [(5, ⟨5, "a", 1⟩)], [], 2⟩ ⟨5, "b", 9⟩
      ⟨0, "", 0⟩ 2 [⟨5, "b", 9⟩]).1 ⟨(5, ⟨5, "a", 1⟩), List.mem_singleton.2 rfl, rfl⟩
  · exact (C10_push_dedup_by_id ⟨⟨0, "", 0⟩, [(5, ⟨5, "a", 1⟩)], [], 2⟩ ⟨5, "b", 9⟩
      ⟨0, "", 0⟩ 2 [⟨5, "b", 9⟩]).2

/-- C4: in `ForgetfulStorage`, after `set(key, value)` at time `t0` and any
interleaved `set`/`get` operations on other keys at non-decreasing times, a
`get(key)` at time `t` returns the value while less than the ttl has elapsed,
and returns absent (the expired entry culled on access) once more than the
ttl has elapsed without another set of that key. -/
theorem C4_forgetful_ttl {K V : Type} [DecidableEq K] (s : Store K V) (k : K)
    (v : V) (t0 t : Int) (ops : List (Int × SOp K V))
    (hwf : s.WF t0)
    (hsorted : (ops.map Prod.fst).Sorted (· ≤ ·))
    (hge : ∀ op ∈ ops, t0 ≤ op.1)
    (hle : ∀ op ∈ ops, op.1 ≤ t)
    (ht0t : t0 ≤ t)
    (hnk : ∀ op ∈ ops, ∀ k' v', op.2 = SOp.setOp k' v' → k' ≠ k) :
    (t < t0 + s.ttl → ((runOps (s.set k v t0) ops).get k t).2 = some v) ∧
    (t0 + s.ttl < t → ((runOps (s.set k v t0) ops).get k t).2 = none) := by
  have hwf1 : (s.set k v t0).WF t0 := Store.WF_set s k v t0 t0 hwf le_rfl
  have honly1 : ∀ e ∈ (s.set k v t0).entries, e.1 = k → e = (k, t0, v) := by
    intro e he hek
    have he2 := Store.cull_sub
      { s with entries := deleteKey s.entries k ++ [(k, t0, v)] } t0 e he
    rcases List.mem_append.1 he2 with he3 | he3
    · exact absurd hek (deleteKey_keys s.entries k e he3)
    · exact List.mem_singleton.1 he3
  obtain ⟨httlr, hwfr, honlyr, hmemr⟩ :=
    runOps_preserved k t0 v ops (s.set k v t0) t0 hwf1 honly1 hge hsorted hnk
  have httlf : (runOps (s.set k v t0) ops).ttl = s.ttl := httlr
  have hwff : (runOps (s.set k v t0) ops).WF t := hwfr t ht0t hle
  constructor
  · intro hp1
    have httl0 : 0 < s.ttl := by omega
    have hpre := Store.set_pre_WF s k v t0 t0 hwf le_rfl
    have hmem1 : (k, t0, v) ∈ (s.set k v t0).entries := by
      refine Store.cull_keeps _ t0 _ hpre.1 ?_ ?_
      · exact List.mem_append.2 (Or.inr (List.mem_singleton.2 rfl))
      · show ¬ (t0 - s.ttl ≥ t0)
        omega
    have hmemf : (k, t0, v) ∈ (runOps (s.set k v t0) ops).entries := by
      refine hmemr hmem1 ?_
      intro op hop
      calc op.1 ≤ t := hle op hop
        _ < t0 + s.ttl := hp1
    have hculled : (k, t0, v) ∈ ((runOps (s.set k v t0) ops).cull t).entries := by
      refine Store.cull_keeps _ t _ hwff.1 hmemf ?_
      rw [httlf]
      show ¬ (t - s.ttl ≥ t0)
      omega
    have hnodup := (Store.WF_cull _ t t hwff).2.1
    show (((runOps (s.set k v t0) ops).cull t).entries.find?
        (fun e => e.1 == k)).map (fun e => e.2.2) = some v
    rw [find_key_unique _ k (k, t0, v) hculled rfl hnodup]
    rfl
  · intro hp2
    show (((runOps (s.set k v t0) ops).cull t).entries.find?
        (fun e => e.1 == k)).map (fun e => e.2.2) = none
    have hnone : ((runOps (s.set k v t0) ops).cull t).entries.find?
        (fun e => e.1 == k) = none := by
      rw [List.find?_eq_none]
      intro x hx hpx
      have hxk : x.1 = k := by simpa using hpx
      rw [Store.cull_eq _ t hwff.1] at hx
      have hx1 := List.mem_filter.1 hx
      have hxz : x = (k, t0, v) := honlyr x hx1.1 hxk
      have hxt : ¬ (t - (runOps (s.set k v t0) ops).ttl ≥ x.2.1) := by
        simpa using hx1.2
      rw [hxz, httlf] at hxt
      exact hxt (by show t - s.ttl ≥ t0; omega)
    rw [hnone]
    rfl

/-- Witness for C4 at a concrete input: empty store, ttl 20000, set key 1 to
value 2 at time 0, no interleaved operations, get at time 1. -/
theorem C4_forgetful_ttl_witness :
    ((1 : Int) < 0 + (Store.mk [] 20000 : Store Nat Nat).ttl →
      ((runOps ((Store.mk [] 20000 : Store Nat Nat).set 1 2 0) []).get 1 1).2 = some 2) ∧
    ((0 : Int) + (Store.mk [] 20000 : Store Nat Nat).ttl < 1 →
      ((runOps ((Store.mk [] 20000 : Store Nat Nat).set 1 2 0) []).get 1 1).2 = none) := by
  refine C4_forgetful_ttl (Store.mk [] 20000) 1 2 0 1 [] ?_ ?_ ?_ ?_ ?_ ?_
  · exact ⟨List.Pairwise.nil, List.nodup_nil, fun e he => absurd he (List.not_mem_nil e)⟩
  · exact List.sorted_nil
  · intro op hop
    exact absurd hop (List.not_mem_nil op)
  · intro op hop
    exact absurd hop (List.not_mem_nil op)
  · exact zero_le_one
  · intro op hop
    exact absurd hop (List.not_mem_nil op)

/-- C9: the `ForgetfulStorage` invariant — stamps non-decreasing in insertion
order with pairwise-distinct keys — is preserved by `set`, `get`, `cull` and
`pop`, and under it `cull` removes exactly the expired entries (the FIFO pops
hit precisely the prefix of entries older than the ttl). -/
theorem C9_storage_order_invariant {K V : Type} [DecidableEq K] (s : Store K V)
    (k : K) (v : V) (now now' : Int) (hwf : s.WF now) (hnn : now ≤ now') :
    ((s.set k v now').WF now') ∧
    ((s.get k now').1.WF now') ∧
    ((s.cull now').WF now') ∧
    (s.popFIFO.WF now) ∧
    ((s.cull now').entries
      = s.entries.filter (fun e => ¬ (now' - s.ttl ≥ e.2.1))) := by
  refine ⟨Store.WF_set s k v now now' hwf hnn, ?_, ?_,
    Store.WF_drop s now 1 hwf, Store.cull_eq s now' hwf.1⟩
  · exact Store.WF_cull s now' now' (hwf.mono hnn)
  · exact Store.WF_cull s now' now' (hwf.mono hnn)

/-- Witness for C9 at a concrete input: a two-entry store with ascending
stamps, operations at time 30000. -/
theorem C9_storage_order_invariant_witness :
    (((Store.mk [(1, 5, 7), (2, 9, 8)] 20000 : Store Nat Nat).set 3 4 30000).WF 30000) ∧
    (((Store.mk [(1, 5, 7), (2, 9, 8)] 20000 : Store Nat Nat).get 1 30000).1.WF 30000) ∧
    (((Store.mk [(1, 5, 7), (2, 9, 8)] 20000 : Store Nat Nat).cull 30000).WF 30000) ∧
    ((Store.mk [(1, 5, 7), (2, 9, 8)] 20000 : Store Nat Nat).popFIFO.WF 10) ∧
    (((Store.mk [(1, 5, 7), (2, 9, 8)] 20000 : Store Nat Nat).cull 30000).entries
      = (Store.mk [(1, 5, 7), (2, 9, 8)] 20000 : Store Nat Nat).entries.filter
          (fun e => ¬ ((30000 : Int) - (Store.mk [(1, 5, 7), (2, 9, 8)] 20000 : Store Nat Nat).ttl ≥ e.2.1))) := by
  refine C9_storage_order_invariant (Store.mk [(1, 5, 7), (2, 9, 8)] 20000) 3 4 10 30000 ?_ ?_
  · refine ⟨?_, ?_, ?_⟩
    · refine List.Pairwise.cons ?_ (List.pairwise_singleton _ _)
      intro b hb
      rw [List.mem_singleton] at hb
      subst hb
      show (5 : Int) ≤ 9
      omega
    · decide
    · intro e he
      rcases List.mem_cons.1 he with rfl | he
      · show (5 : Int) ≤ 10
        omega
      · rw [List.mem_singleton] at he
        subst he
        show (9 : Int) ≤ 10
        omega
  · omega

theorem tBadC2_eq : tBadC2 = ⟨⟨0, "", 0⟩, 1,
    [⟨0, (2 : ℚ) ^ 159, [⟨5, "", 0⟩], [], 1⟩,
     ⟨(2 : ℚ) ^ 159 + 1, (2 : ℚ) ^ 160, [⟨2 ^ 159, "", 0⟩], [], 1⟩]⟩ := by
  have hcast159 : ((2 ^ 159 : Nat) : ℚ) = (2 : ℚ) ^ 159 := by
    push_cast
    ring
  have hcast5 : ((5 : Nat) : ℚ) = (5 : ℚ) := by
    push_cast
    ring
  have hle1 : ((2 ^ 159 : Nat) : ℚ) ≤ (2 : ℚ) ^ 160 := by
    rw [hcast159]
    norm_num
  have hle2 : ((5 : Nat) : ℚ) ≤ (2 : ℚ) ^ 160 := by
    rw [hcast5]
    norm_num
  have hle3 : ((5 : Nat) : ℚ) ≤ (2 : ℚ) ^ 159 := by
    rw [hcast5]
    norm_num
  have hg0 : (RoutingTable.flush ⟨0, "", 0⟩ 1).getBucketFor ⟨2 ^ 159, "", 0⟩ = 0 := by
    show List.findIdx _ [(⟨0, (2 : ℚ) ^ 160, [], [], 1⟩ : KBucket)] = 0
    rw [List.findIdx_cons]
    have hd : decide (((2 ^ 159 : Nat) : ℚ) ≤
        ((⟨0, (2 : ℚ) ^ 160, [], [], 1⟩ : KBucket).rangeUpper)) = true :=
      decide_eq_true hle1
    rw [hd, cond_true]
  have hget0 : (RoutingTable.flush ⟨0, "", 0⟩ 1).buckets.get?
      ((RoutingTable.flush ⟨0, "", 0⟩ 1).getBucketFor ⟨2 ^ 159, "", 0⟩)
      = some ⟨0, (2 : ℚ) ^ 160, [], [], 1⟩ := by
    rw [hg0]
    rfl
  have haddA : (⟨0, (2 : ℚ) ^ 160, [], [], 1⟩ : KBucket).addNode ⟨2 ^ 159, "", 0⟩
      = (⟨0, (2 : ℚ) ^ 160, [⟨2 ^ 159, "", 0⟩], [], 1⟩, true) := rfl
  have hstep1 : (RoutingTable.flush ⟨0, "", 0⟩ 1).addContact ⟨2 ^ 159, "", 0⟩ 10
      = ⟨⟨0, "", 0⟩, 1, [⟨0, (2 : ℚ) ^ 160, [⟨2 ^ 159, "", 0⟩], [], 1⟩]⟩ := by
    rw [addContact_step_added _ _ 9 _ hget0 (by rw [haddA])]
    rw [hg0, haddA]
    rfl
  have hg1 : (⟨⟨0, "", 0⟩, 1, [⟨0, (2 : ℚ) ^ 160, [⟨2 ^ 159, "", 0⟩], [], 1⟩]⟩
      : RoutingTable).getBucketFor ⟨5, "", 0⟩ = 0 := by
    show List.findIdx _ [(⟨0, (2 : ℚ) ^ 160, [⟨2 ^ 159, "", 0⟩], [], 1⟩ : KBucket)] = 0
    rw [List.findIdx_cons]
    have hd : decide (((5 : Nat) : ℚ) ≤
        ((⟨0, (2 : ℚ) ^ 160, [⟨2 ^ 159, "", 0⟩], [], 1⟩ : KBucket).rangeUpper)) = true :=
      decide_eq_true hle2
    rw [hd, cond_true]
  have hget1 : (⟨⟨0, "", 0⟩, 1, [⟨0, (2 : ℚ) ^ 160, [⟨2 ^ 159, "", 0⟩], [], 1⟩]⟩
      : RoutingTable).buckets.get?
      ((⟨⟨0, "", 0⟩, 1, [⟨0, (2 : ℚ) ^ 160, [⟨2 ^ 159, "", 0⟩], [], 1⟩]⟩
        : RoutingTable).getBucketFor ⟨5, "", 0⟩)
      = some ⟨0, (2 : ℚ) ^ 160, [⟨2 ^ 159, "", 0⟩], [], 1⟩ := by
    rw [hg1]
    rfl
  have haddB : (⟨0, (2 : ℚ) ^ 160, [⟨2 ^ 159, "", 0⟩], [], 1⟩ : KBucket).addNode ⟨5, "", 0⟩
      = (⟨0, (2 : ℚ) ^ 160, [⟨2 ^ 159, "", 0⟩], [⟨5, "", 0⟩], 1⟩, false) := by
    have hne : ((2 ^ 159 : Nat) == (5 : Nat)) = false := by decide
    unfold KBucket.addNode
    rw [if_neg (by
      intro hany
      rcases List.any_eq_true.1 hany with ⟨m, hm, hmn⟩
      rw [List.mem_singleton] at hm
      subst hm
      exact Bool.false_ne_true (hne ▸ hmn))]
    rw [if_neg (by decide)]
    rfl
  have hrange : (⟨0, (2 : ℚ) ^ 160, [⟨2 ^ 159, "", 0⟩], [], 1⟩ : KBucket).hasInRange
      ⟨0, "", 0⟩ = true := by
    show (decide ((0 : ℚ) ≤ ((0 : Nat) : ℚ)) &&
      decide (((0 : Nat) : ℚ) ≤ (2 : ℚ) ^ 160)) = true
    rw [decide_eq_true (by push_cast; norm_num : (0 : ℚ) ≤ ((0 : Nat) : ℚ)),
      decide_eq_true (by push_cast; norm_num : ((0 : Nat) : ℚ) ≤ (2 : ℚ) ^ 160)]
    rfl
  have hmid : ((⟨0, (2 : ℚ) ^ 160, [⟨2 ^ 159, "", 0⟩], [⟨5, "", 0⟩], 1⟩ : KBucket).rangeLower
      + (⟨0, (2 : ℚ) ^ 160, [⟨2 ^ 159, "", 0⟩], [⟨5, "", 0⟩], 1⟩ : KBucket).rangeUpper) / 2
      = (2 : ℚ) ^ 159 := by
    show ((0 : ℚ) + 2 ^ 160) / 2 = 2 ^ 159
    norm_num
  have hnotlt : ¬ ((2 : ℚ) ^ 159 > ((2 ^ 159 : Nat) : ℚ)) := by
    rw [hcast159]
    exact lt_irrefl _
  have hsplitB : (⟨⟨0, "", 0⟩, 1,
      [⟨0, (2 : ℚ) ^ 160, [⟨2 ^ 159, "", 0⟩], [⟨5, "", 0⟩], 1⟩]⟩
      : RoutingTable).splitBucket 0
      = ⟨⟨0, "", 0⟩, 1, [⟨0, (2 : ℚ) ^ 159, [], [], 1⟩,
          ⟨(2 : ℚ) ^ 159 + 1, (2 : ℚ) ^ 160, [⟨2 ^ 159, "", 0⟩], [], 1⟩]⟩ := by
    unfold RoutingTable.splitBucket
    simp only [List.get?_cons_zero]
    rw [KBucket.split_eq _ (by
      show ([(⟨2 ^ 159, "", 0⟩ : Node)].map Node.id).Nodup
      exact List.nodup_singleton _)]
    rw [hmid]
    have hf1 : ([(⟨2 ^ 159, "", 0⟩ : Node)]).filter
        (fun n => decide ((2 : ℚ) ^ 159 > (n.id : ℚ))) = [] := by
      rw [List.filter_cons]
      simp only [hnotlt, decide_False, List.filter_nil]
      rfl
    have hf2 : ([(⟨2 ^ 159, "", 0⟩ : Node)]).filter
        (fun n => !(decide ((2 : ℚ) ^ 159 > (n.id : ℚ)))) = [⟨2 ^ 159, "", 0⟩] := by
      rw [List.filter_cons]
      simp only [hnotlt, decide_False, Bool.not_false, List.filter_nil]
      rfl
    rw [hf1, hf2]
    rfl
  have hstep2 : (⟨⟨0, "", 0⟩, 1, [⟨0, (2 : ℚ) ^ 160, [⟨2 ^ 159, "", 0⟩], [], 1⟩]⟩
      : RoutingTable).addContact ⟨5, "", 0⟩ 10
      = (⟨⟨0, "", 0⟩, 1, [⟨0, (2 : ℚ) ^ 159, [], [], 1⟩,
          ⟨(2 : ℚ) ^ 159 + 1, (2 : ℚ) ^ 160, [⟨2 ^ 159, "", 0⟩], [], 1⟩]⟩
        : RoutingTable).addContact ⟨5, "", 0⟩ 9 := by
    rw [addContact_step_split _ _ 9 _ hget1 (by rw [haddB]) (by rw [hrange]; rfl)]
    rw [hg1, haddB]
    rw [show (([⟨0, (2 : ℚ) ^ 160, [⟨2 ^ 159, "", 0⟩], [], 1⟩] : List KBucket).set 0
      ⟨0, (2 : ℚ) ^ 160, [⟨2 ^ 159, "", 0⟩], [⟨5, "", 0⟩], 1⟩)
      = [⟨0, (2 : ℚ) ^ 160, [⟨2 ^ 159, "", 0⟩], [⟨5, "", 0⟩], 1⟩] from rfl]
    rw [hsplitB]
  have hg2 : (⟨⟨0, "", 0⟩, 1, [⟨0, (2 : ℚ) ^ 159, [], [], 1⟩,
      ⟨(2 : ℚ) ^ 159 + 1, (2 : ℚ) ^ 160, [⟨2 ^ 159, "", 0⟩], [], 1⟩]⟩
      : RoutingTable).getBucketFor ⟨5, "", 0⟩ = 0 := by
    show List.findIdx _ _ = 0
    rw [List.findIdx_cons]
    have hd : decide (((5 : Nat) : ℚ) ≤
        ((⟨0, (2 : ℚ) ^ 159, [], [], 1⟩ : KBucket).rangeUpper)) = true :=
      decide_eq_true hle3
    rw [hd, cond_true]
  have hget2 : (⟨⟨0, "", 0⟩, 1, [⟨0, (2 : ℚ) ^ 159, [], [], 1⟩,
      ⟨(2 : ℚ) ^ 159 + 1, (2 : ℚ) ^ 160, [⟨2 ^ 159, "", 0⟩], [], 1⟩]⟩
      : RoutingTable).buckets.get?
      ((⟨⟨0, "", 0⟩, 1, [⟨0, (2 : ℚ) ^ 159, [], [], 1⟩,
        ⟨(2 : ℚ) ^ 159 + 1, (2 : ℚ) ^ 160, [⟨2 ^ 159, "", 0⟩], [], 1⟩]⟩
        : RoutingTable).getBucketFor ⟨5, "", 0⟩)
      = some ⟨0, (2 : ℚ) ^ 159, [], [], 1⟩ := by
    rw [hg2]
    rfl
  have haddC : (⟨0, (2 : ℚ) ^ 159, [], [], 1⟩ : KBucket).addNode ⟨5, "", 0⟩
      = (⟨0, (2 : ℚ) ^ 159, [⟨5, "", 0⟩], [], 1⟩, true) := rfl
  have hstep3 : (⟨⟨0, "", 0⟩, 1, [⟨0, (2 : ℚ) ^ 159, [], [], 1⟩,
      ⟨(2 : ℚ) ^ 159 + 1, (2 : ℚ) ^ 160, [⟨2 ^ 159, "", 0⟩], [], 1⟩]⟩
      : RoutingTable).addContact ⟨5, "", 0⟩ 9
      = ⟨⟨0, "", 0⟩, 1, [⟨0, (2 : ℚ) ^ 159, [⟨5, "", 0⟩], [], 1⟩,
          ⟨(2 : ℚ) ^ 159 + 1, (2 : ℚ) ^ 160, [⟨2 ^ 159, "", 0⟩], [], 1⟩]⟩ := by
    rw [addContact_step_added _ _ 8 _ hget2 (by rw [haddC])]
    rw [hg2, haddC]
    rfl
  show ((RoutingTable.flush ⟨0, "", 0⟩ 1).addContact ⟨2 ^ 159, "", 0⟩ 10).addContact
      ⟨5, "", 0⟩ 10 = _
  rw [hstep1, hstep2, hstep3]

/-- C2 counterexample: the reachable state `tBadC2` (fresh table with
ksize 1, add the node with id `2^159`, then the node with id 5 forcing a
split) stores the node `2^159` in the bucket whose range is
`[2^159 + 1, 2^160]` — a stored id outside its bucket's range, refuting the
claimed invariant. -/
theorem C2_counterexample :
    Reachable ⟨0, "", 0⟩ 1 tBadC2 ∧ ¬ ClaimedC2 tBadC2 := by
  constructor
  · exact Reachable.add _ ⟨5, "", 0⟩ 10
      (Reachable.add _ ⟨2 ^ 159, "", 0⟩ 10 Reachable.init (by norm_num))
      (by norm_num)
  · intro hcl
    have hmem : (⟨(2 : ℚ) ^ 159 + 1, (2 : ℚ) ^ 160, [⟨2 ^ 159, "", 0⟩], [], 1⟩
        : KBucket) ∈ tBadC2.buckets := by
      rw [tBadC2_eq]
      exact List.mem_cons_of_mem _ (List.mem_singleton.2 rfl)
    have hv := hcl.2 _ hmem ⟨2 ^ 159, "", 0⟩ (List.mem_singleton.2 rfl)
    have hlt : ¬ ((2 : ℚ) ^ 159 + 1 ≤ (((2 ^ 159 : Nat) : Nat) : ℚ)) := by
      push_cast
      norm_num
    exact hlt hv.1

/-- C2 (amended): in every reachable routing-table state the bucket ranges
are adjacent — the first starts at 0, each next bucket starts at the previous
upper bound plus one, the last ends at `2^160` — hence non-overlapping; and
every stored or replacement id of a bucket lies in `[lo − 1, hi]`.  (The
claimed `[lo, hi]` fails, and integer gaps open between `hi` and `hi + 1`
when a midpoint is fractional: see the counterexample.) -/
theorem C2_amended_invariant (self : Node) (ksize : Nat) (t : RoutingTable)
    (hr : Reachable self ksize t) :
    ChainOK 0 t.buckets ∧ ∀ b ∈ t.buckets, rangedB b := by
  have hinv : RTInv t := by
    induction hr with
    | init => exact RTInv_flush self ksize
    | add t n fuel _ hid ih => exact RTInv_addContact self n hid fuel t ih
    | remove t n _ _ ih => exact RTInv_removeContact t n ih
  exact hinv

/-- Witness for C2 (amended) at the concrete reachable state `tBadC2`. -/
theorem C2_amended_invariant_witness :
    ChainOK 0 tBadC2.buckets ∧ ∀ b ∈ tBadC2.buckets, rangedB b :=
  C2_amended_invariant ⟨0, "", 0⟩ 1 tBadC2
    (Reachable.add _ ⟨5, "", 0⟩ 10
      (Reachable.add _ ⟨2 ^ 159, "", 0⟩ 10 Reachable.init (by norm_num))
      (by norm_num))

/-- C3 counterexample: in the full-range bucket `bMidC3` holding the single
node whose id equals the midpoint `(lo + hi) / 2 = 2^159` exactly, `split()`
places that entry in the UPPER bucket, not the lower one as the claim
states. -/
theorem C3_counterexample :
    ((bMidC3_node.id : ℚ) ≤ (bMidC3.rangeLower + bMidC3.rangeUpper) / 2) ∧
    bMidC3_node ∈ bMidC3.nodes ∧
    bMidC3_node ∉ (bMidC3.split).1.nodes ∧
    bMidC3_node ∈ (bMidC3.split).2.nodes := by
  have hmid : (bMidC3.rangeLower + bMidC3.rangeUpper) / 2 = (2 : ℚ) ^ 159 := by
    show ((0 : ℚ) + 2 ^ 160) / 2 = 2 ^ 159
    norm_num
  have hcond : ¬ ((bMidC3.rangeLower + bMidC3.rangeUpper) / 2 > (bMidC3_node.id : ℚ)) := by
    rw [hmid]
    show ¬ ((2 : ℚ) ^ 159 > ((2 ^ 159 : Nat) : ℚ))
    push_cast
    exact lt_irrefl _
  have hsplit := KBucket.split_eq bMidC3 (by
    show ([bMidC3_node].map Node.id).Nodup
    exact List.nodup_singleton _)
  refine ⟨?_, List.mem_singleton.2 rfl, ?_, ?_⟩
  · rw [hmid]
    show ((2 ^ 159 : Nat) : ℚ) ≤ (2 : ℚ) ^ 159
    push_cast
    exact le_refl _
  · rw [hsplit]
    show bMidC3_node ∉ [bMidC3_node].filter
      (fun n => decide ((bMidC3.rangeLower + bMidC3.rangeUpper) / 2 > (n.id : ℚ)))
    rw [List.filter_cons]
    simp only [hcond, decide_False, if_false, List.filter_nil]
    exact List.not_mem_nil _
  · rw [hsplit]
    show bMidC3_node ∈ [bMidC3_node].filter
      (fun n => !(decide ((bMidC3.rangeLower + bMidC3.rangeUpper) / 2 > (n.id : ℚ))))
    rw [List.filter_cons]
    simp only [hcond, decide_False, Bool.not_false, if_true]
    exact List.mem_singleton.2 rfl

/-- C3 (amended): `split()` sends the entries with id strictly below the
midpoint to the lower bucket and all other entries — one whose id equals the
midpoint included — to the upper bucket; the union of the two halves' main
sets is exactly the original main set. -/
theorem C3_amended_split (b : KBucket) (hnd : (b.nodes.map Node.id).Nodup) :
    (b.split).1.nodes
      = b.nodes.filter (fun n => decide ((b.rangeLower + b.rangeUpper) / 2 > (n.id : ℚ))) ∧
    (b.split).2.nodes
      = b.nodes.filter (fun n => !(decide ((b.rangeLower + b.rangeUpper) / 2 > (n.id : ℚ)))) ∧
    List.Perm ((b.split).1.nodes ++ (b.split).2.nodes) b.nodes := by
  have h := KBucket.split_eq b hnd
  refine ⟨by rw [h], by rw [h], ?_⟩
  rw [h]
  exact List.filter_append_perm _ b.nodes

/-- C8 counterexample: for a lonely bucket with range `[2^159 + 1, 2^160]`
(an upper half produced by splitting the initial bucket) and the draw
`rnd = 0`, `getRefreshIDs` produces the numeric value `2^159 − 1`, strictly
below the bucket's lower bound — not an id within `[lo, hi]`. -/
theorem C8_counterexample :
    refreshID ⟨(2 : ℚ) ^ 159 + 1, (2 : ℚ) ^ 160, [], [], 20⟩ 0 = 2 ^ 159 - 1 ∧
    ((2 ^ 159 - 1 : Int) : ℚ)
      < (⟨(2 : ℚ) ^ 159 + 1, (2 : ℚ) ^ 160, [], [], 20⟩ : KBucket).rangeLower := by
  constructor
  · show bnIntegerValue (((2 : ℚ) ^ 160 - ((2 : ℚ) ^ 159 + 1)) * 0
        + ((2 : ℚ) ^ 160 - ((2 : ℚ) ^ 159 + 1))) % (16 ^ 40 : Int) = 2 ^ 159 - 1
    have h1 : ((2 : ℚ) ^ 160 - ((2 : ℚ) ^ 159 + 1)) * 0
        + ((2 : ℚ) ^ 160 - ((2 : ℚ) ^ 159 + 1)) = ((2 ^ 159 - 1 : Int) : ℚ) := by
      push_cast
      ring_nf
    rw [bnIntegerValue, h1]
    have h2 : ⌊((2 ^ 159 - 1 : Int) : ℚ) + 1 / 2⌋ = 2 ^ 159 - 1 := by
      rw [Int.floor_eq_iff]
      constructor
      · norm_num
      · push_cast
        norm_num
    rw [h2]
    apply Int.emod_eq_of_lt
    · norm_num
    · norm_num
  · show ((2 ^ 159 - 1 : Int) : ℚ) < (2 : ℚ) ^ 159 + 1
    push_cast
    norm_num

/-- C8 (amended): for every lonely bucket and every draw, `getRefreshIDs`
produces a 40-hex-character id, i.e. a numeric value in `[0, 2^160)` — it is
`((hi − lo)·rnd + (hi − lo))` rounded and truncated to 160 bits, which need
not lie within `[lo, hi]`. -/
theorem C8_amended_range (b : KBucket) (rnd : ℚ) :
    0 ≤ refreshID b rnd ∧ refreshID b rnd < 16 ^ 40 := by
  unfold refreshID
  constructor
  · exact Int.emod_nonneg _ (by norm_num)
  · exact Int.emod_lt_of_pos _ (by norm_num)

/-- C6: for an incoming sender already present in the routing table,
`welcomeIfNewNode` issues no stores and leaves the router unchanged; for a
new sender it adds the node via `addContact`, and for each stored
`(key, value)` a `callStore` is issued to the new node iff the key's digest
has no neighbors, or the new node is strictly closer to the key than the
furthest of the current k neighbors while the local node is strictly closer
than the closest of them. -/
theorem C6_welcome_stores_iff {K V : Type} (digest : K → Nat)
    (p : ProtocolState K V) (node : Node) (now : Int) (fuel : Nat) :
    (p.router.isNewNode node = false →
      welcomeIfNewNode digest p node now fuel = ([], p.router)) ∧
    (p.router.isNewNode node = true →
      ((welcomeIfNewNode digest p node now fuel).2 = p.router.addContact node fuel ∧
       ∀ kv ∈ (p.storage.items now).2,
         (kv ∈ (welcomeIfNewNode digest p node now fuel).1 ↔
           (p.router.findNeighbors ⟨digest kv.1, "", 0⟩ none none = [] ∨
            ((∃ f ∈ p.router.findNeighbors ⟨digest kv.1, "", 0⟩ none none,
                (∀ m ∈ p.router.findNeighbors ⟨digest kv.1, "", 0⟩ none none,
                  m.distanceTo ⟨digest kv.1, "", 0⟩ ≤ f.distanceTo ⟨digest kv.1, "", 0⟩) ∧
                node.distanceTo ⟨digest kv.1, "", 0⟩ < f.distanceTo ⟨digest kv.1, "", 0⟩) ∧
             (∃ c ∈ p.router.findNeighbors ⟨digest kv.1, "", 0⟩ none none,
                (∀ m ∈ p.router.findNeighbors ⟨digest kv.1, "", 0⟩ none none,
                  c.distanceTo ⟨digest kv.1, "", 0⟩ ≤ m.distanceTo ⟨digest kv.1, "", 0⟩) ∧
                p.sourceNode.distanceTo ⟨digest kv.1, "", 0⟩
                  < c.distanceTo ⟨digest kv.1, "", 0⟩)))))) := by
  constructor
  · intro hfalse
    unfold welcomeIfNewNode
    rw [if_pos hfalse]
  · intro htrue
    have hwelcome : welcomeIfNewNode digest p node now fuel
        = (((p.storage.items now).2).filter (welcomeCond digest p node),
           p.router.addContact node fuel) := by
      unfold welcomeIfNewNode
      rw [if_neg (by simp [htrue])]
    constructor
    · rw [hwelcome]
    · intro kv hkv
      rw [hwelcome]
      show kv ∈ ((p.storage.items now).2).filter (welcomeCond digest p node) ↔ _
      rw [List.mem_filter]
      constructor
      · rintro ⟨_, hcond⟩
        exact (welcomeCond_iff digest p node kv).1 hcond
      · intro hrhs
        exact ⟨hkv, (welcomeCond_iff digest p node kv).2 hrhs⟩

/-- Witness for C6 at a concrete input: a fresh router (so the sender with
id 7 is new), empty storage, constant digest. -/
theorem C6_welcome_stores_iff_witness :
    ((welcomeIfNewNode (fun _ => 3)
        (⟨RoutingTable.flush ⟨0, "", 0⟩ 20, ⟨[], 20000⟩, ⟨0, "", 0⟩⟩ : ProtocolState Nat Nat)
        ⟨7, "", 0⟩ 0 1).2
      = (RoutingTable.flush ⟨0, "", 0⟩ 20).addContact ⟨7, "", 0⟩ 1 ∧
     ∀ kv ∈ (((⟨[], 20000⟩ : Store Nat Nat)).items 0).2,
       (kv ∈ (welcomeIfNewNode (fun _ => 3)
          (⟨RoutingTable.flush ⟨0, "", 0⟩ 20, ⟨[], 20000⟩, ⟨0, "", 0⟩⟩ : ProtocolState Nat Nat)
          ⟨7, "", 0⟩ 0 1).1 ↔
         ((RoutingTable.flush ⟨0, "", 0⟩ 20).findNeighbors ⟨3, "", 0⟩ none none = [] ∨
          ((∃ f ∈ (RoutingTable.flush ⟨0, "", 0⟩ 20).findNeighbors ⟨3, "", 0⟩ none none,
              (∀ m ∈ (RoutingTable.flush ⟨0, "", 0⟩ 20).findNeighbors ⟨3, "", 0⟩ none none,
                m.distanceTo ⟨3, "", 0⟩ ≤ f.distanceTo ⟨3, "", 0⟩) ∧
              Node.distanceTo ⟨7, "", 0⟩ ⟨3, "", 0⟩ < f.distanceTo ⟨3, "", 0⟩) ∧
           (∃ c ∈ (RoutingTable.flush ⟨0, "", 0⟩ 20).findNeighbors ⟨3, "", 0⟩ none none,
              (∀ m ∈ (RoutingTable.flush ⟨0, "", 0⟩ 20).findNeighbors ⟨3, "", 0⟩ none none,
                c.distanceTo ⟨3, "", 0⟩ ≤ m.distanceTo ⟨3, "", 0⟩) ∧
              Node.distanceTo ⟨0, "", 0⟩ ⟨3, "", 0⟩ < c.distanceTo ⟨3, "", 0⟩))))) :=
  (C6_welcome_stores_iff (fun _ => 3)
      (⟨RoutingTable.flush ⟨0, "", 0⟩ 20, ⟨[], 20000⟩, ⟨0, "", 0⟩⟩ : ProtocolState Nat Nat)
      ⟨7, "", 0⟩ 0 1).2 (by decide)

/-- Witness for C3 (amended) at the concrete bucket `bMidC3`. -/
theorem C3_amended_split_witness :
    (bMidC3.split).1.nodes
      = bMidC3.nodes.filter
          (fun n => decide ((bMidC3.rangeLower + bMidC3.rangeUpper) / 2 > (n.id : ℚ))) ∧
    (bMidC3.split).2.nodes
      = bMidC3.nodes.filter
          (fun n => !(decide ((bMidC3.rangeLower + bMidC3.rangeUpper) / 2 > (n.id : ℚ)))) ∧
    List.Perm ((bMidC3.split).1.nodes ++ (bMidC3.split).2.nodes) bMidC3.nodes :=
  C3_amended_split bMidC3 (List.nodup_singleton _)

/-- A response for an already-deleted msgid leaves the pending state
unchanged (`_acceptResponse` only logs it). -/
lemma acceptResponse_stale {V : Type} (s : PendingState V)
    (h : s.outstanding = false) (d : V) : acceptResponse s d = s := by
  unfold acceptResponse
  rw [if_neg (by simp [h])]

/-- Any number of responses for an already-deleted msgid are all ignored. -/
lemma runResponses_stale {V : Type} (s : PendingState V)
    (h : s.outstanding = false) : ∀ ds : List V, runResponses s ds = s := by
  intro ds
  induction ds with
  | nil => rfl
  | cons d rest ih =>
      show runResponses (acceptResponse s d) rest = s
      rw [acceptResponse_stale s h d]
      exact ih

/-- C5: for a registered pending RPC entry exactly one completion occurs.
When the timeout fires, the caller's completion is fulfilled with
`(false, none)` and the entry is removed, after which any late responses
find no pending entry and leave the state unchanged; when a response
arrives first, the completion is `(true, data)`, the timer is cleared and
the entry removed.  Feeding the failed completion to `handleCallResponse`
removes the contact from the routing table. -/
theorem C5_timeout_completion {K V : Type} (digest : K → Nat)
    (p : ProtocolState K V) (node : Node) (now : Int) (fuel : Nat)
    (ds : List V) (d : V) :
    (timeoutFire (registered V)).completion = some (false, none) ∧
    (timeoutFire (registered V)).outstanding = false ∧
    runResponses (timeoutFire (registered V)) ds = timeoutFire (registered V) ∧
    (acceptResponse (registered V) d).completion = some (true, some d) ∧
    (acceptResponse (registered V) d).timerActive = false ∧
    (acceptResponse (registered V) d).outstanding = false ∧
    (handleCallResponse digest p (false, none) node now fuel).2.1.router
      = p.router.removeContact node := by
  refine ⟨rfl, rfl, runResponses_stale _ rfl ds, rfl, rfl, rfl, ?_⟩
  rfl

/-- With no neighbors for the key, `set_digest` returns `false` and leaves
the storage untouched. -/
lemma set_digest_no_neighbors {V : Type} (self : Node) (router : RoutingTable)
    (storage : Store Nat V) (dkey : Nat) (value : V) (nodes : List Node)
    (settled : List (Bool × Option V)) (now : Int)
    (h : router.findNeighbors ⟨dkey, "", 0⟩ none none = []) :
    set_digest self router storage dkey value nodes settled now
      = (SetDigestResult.noNeighbors, storage) := by
  simp only [set_digest]
  rw [if_pos (by simp [h])]

/-- With at least one neighbor, `set_digest` returns the first settled
`callStore` tuple, whatever the later ones are. -/
lemma set_digest_first_settled_eval {V : Type} (self : Node)
    (router : RoutingTable) (storage : Store Nat V) (dkey : Nat) (value : V)
    (nodes : List Node) (r : Bool × Option V) (rest : List (Bool × Option V))
    (now : Int) (hne : router.findNeighbors ⟨dkey, "", 0⟩ none none ≠ []) :
    (set_digest self router storage dkey value nodes (r :: rest) now).1
      = SetDigestResult.result r := by
  simp only [set_digest]
  rw [if_neg (by simp [hne])]

/-- The traversal of the single-contact table `c1router` from the key node
with id 5 yields the one stored contact. -/
lemma c1_traverse : c1router.traverse ⟨5, "", 0⟩ = [⟨9, "", 0⟩] := by
  have hidx : c1router.getBucketFor ⟨5, "", 0⟩ = 0 := by decide
  unfold RoutingTable.traverse
  rw [hidx]
  show traverseAux [⟨9, "", 0⟩] [] [] true = [⟨9, "", 0⟩]
  rw [traverseAux, traverseAux]
  rfl

/-- `findNeighbors` on `c1router` for the key node with id 5. -/
lemma c1_findNeighbors :
    c1router.findNeighbors ⟨5, "", 0⟩ none none = [⟨9, "", 0⟩] := by
  unfold RoutingTable.findNeighbors
  rw [c1_traverse]
  rfl

/-- The traversal of a freshly flushed table yields nothing. -/
lemma c1_flush_traverse :
    (RoutingTable.flush ⟨0, "", 0⟩ 20).traverse ⟨5, "", 0⟩ = [] := by
  have hidx : (RoutingTable.flush ⟨0, "", 0⟩ 20).getBucketFor ⟨5, "", 0⟩ = 0 := by
    decide
  unfold RoutingTable.traverse
  rw [hidx]
  show traverseAux [] [] [] true = []
  rw [traverseAux]
  rfl

/-- `findNeighbors` on a freshly flushed table is empty. -/
lemma c1_flush_findNeighbors :
    (RoutingTable.flush ⟨0, "", 0⟩ 20).findNeighbors ⟨5, "", 0⟩ none none = [] := by
  unfold RoutingTable.findNeighbors
  rw [c1_flush_traverse]
  rfl

/-- C1 (code bug): the no-neighbors half of the claim holds — with an empty
routing table `set_digest` returns `false` — but the success half fails.
`any` returns the first-settled `callStore` tuple (the rpcudp completion
never rejects, so the `catch` recursion is dead code), not
success-iff-some-store-succeeded.  At the failing input the first store
call to settle timed out while the second succeeded, yet `set_digest`
returns the failed tuple `(false, none)`, contradicting the claim and the
source's own comment. -/
theorem C1_set_digest_first_settled :
    (set_digest ⟨0, "", 0⟩ (RoutingTable.flush ⟨0, "", 0⟩ 20)
        (⟨[], 20000⟩ : Store Nat Nat) 5 7 [] [] 0).1
      = SetDigestResult.noNeighbors ∧
    c1settled.any (fun r => r.1) = true ∧
    (set_digest ⟨0, "", 0⟩ c1router (⟨[], 20000⟩ : Store Nat Nat) 5 7
        [⟨9, "", 0⟩, ⟨10, "", 0⟩] c1settled 0).1
      = SetDigestResult.result (false, none) := by
  refine ⟨?_, rfl, ?_⟩
  · rw [set_digest_no_neighbors _ _ _ _ _ _ _ _ c1_flush_findNeighbors]
  · exact set_digest_first_settled_eval _ _ _ _ _ _ _ _ _
      (by rw [c1_findNeighbors]; simp)

end Canbox
